import Mathlib

/-!
# Replicated file store simulator (`src/dfs.c`)

A shallow embedding of the core of `dfs.c`: the node registry `nodes[MAX_NODES]`,
the file catalog `files[MAX_FILES]`, replica placement (`create_replicas`),
healing (`heal_replication`), file creation and the read path.

Conventions of the embedding.

* A C array `T a[N]` is a `List T` holding `a[0]`, ..., `a[N-1]` in index order.
  A loop `for (i = 0; i < N; i++)` over the entries of an array is a traversal of
  the list; an access `a[i]` at a computed index is `List.getD` / `List.set`.
* A C `int` is an `Int`; an `int` used as a flag is tested against `0`, as C does.
* A C string is the list of its characters before the terminating NUL, so
  `strcmp(a, b) == 0` is equality of lists and `strncpy(dst, src, n - 1)` followed
  by `dst[n - 1] = 0` is `List.take (n - 1)`.
* The globals `nodes` and `files` are the two fields of `State`, passed explicitly.
  Console input is a parameter of each operation (the text that `read_line` or
  `scanf` delivered), console output is part of the returned value.
-/

namespace Dfs

/-! ## Constants and data types -/

abbrev MAX_NODES : Nat := 4
abbrev MAX_FILES : Nat := 100
abbrev MAX_FILENAME : Nat := 64
abbrev MAX_DATA : Nat := 256
abbrev REPLICA_COUNT : Nat := 3

/-- The struct `FileReplica`: `is_active` is 1 when a replica is present, 0 when the slot
is free or lost. -/
structure FileReplica where
  node_id : Int
  is_active : Int
deriving DecidableEq, Repr

/-- The struct `FileEntry`: `in_use` is 1 when the file slot is used. -/
structure FileEntry where
  name : List Char
  data : List Char
  replicas : List FileReplica
  in_use : Int
deriving DecidableEq, Repr

/-- The struct `Node`: `is_up` is 1 when the node is up, 0 when it has failed. -/
structure Node where
  id : Int
  is_up : Int
deriving DecidableEq, Repr

/-- The two global arrays `nodes[MAX_NODES]` and `files[MAX_FILES]`. -/
structure State where
  nodes : List Node
  files : List FileEntry
deriving DecidableEq, Repr

/-- A zero-initialised `Node`, as C gives a global before `init_system` runs. -/
def Node.zero : Node := { id := 0, is_up := 0 }

/-- A zero-initialised `FileEntry`: empty strings, `REPLICA_COUNT` zeroed slots. -/
def FileEntry.zero : FileEntry :=
  { name := [], data := [],
    replicas := List.replicate REPLICA_COUNT { node_id := 0, is_active := 0 },
    in_use := 0 }

/-- The line `[HEAL] File '%s' replicated to node %d ...` printed by `heal_replication`. -/
structure HealEvent where
  name : List Char
  node : Int
deriving DecidableEq, Repr

/-- What `create_file` prints: the three refusals, or the number of replicas stored
(`File stored with 3 replicas` or `File stored, but only k replicas created`). -/
inductive CreateResult where
  | DuplicateName
  | CatalogFull
  | NoHealthyNodes
  | Stored (replicas : Nat)
deriving DecidableEq, Repr

/-- What `read_file` prints: `File not found`, `All replicas are on FAILED nodes`, or the
serving node with the stored name and data. -/
inductive ReadResult where
  | NotFound
  | Unavailable
  | Served (node_id : Int) (name : List Char) (data : List Char)
deriving DecidableEq, Repr

/-- What `fail_node` and `recover_node` print. -/
inductive NodeResult where
  | InvalidNode
  | AlreadyDown
  | AlreadyUp
  | Done
deriving DecidableEq, Repr

/-! ## Helpers of the source -/

/-- The test `nodes[n].is_up` of the source, for an index `n`. -/
def node_is_up (nodes : List Node) (n : Nat) : Bool :=
  (nodes.getD n Node.zero).is_up ≠ 0

/-- The function `count_active_replicas`: the number of slots whose `is_active` is set. -/
def count_active_replicas (f : FileEntry) : Nat :=
  f.replicas.countP (fun r => r.is_active ≠ 0)

/-- The function `is_node_already_replica`: some active slot of `f` holds `node_id`. -/
def is_node_already_replica (f : FileEntry) (node_id : Int) : Bool :=
  f.replicas.any (fun r => r.is_active ≠ 0 ∧ r.node_id = node_id)

/-- The function `init_system`: every node gets its index as id and is up, every file
slot is marked unused (the other fields of a file slot are the zeroes of a C global). -/
def init_system : State :=
  { nodes := (List.range MAX_NODES).map (fun i => { id := (i : Int), is_up := 1 }),
    files := List.replicate MAX_FILES FileEntry.zero }

/-- The function `find_file_index`: the index of the first used slot whose name equals
`name`, `none` for the `-1` of the source. -/
def find_file_index : List FileEntry → List Char → Option Nat
  | [], _ => none
  | f :: fs, name =>
    if f.in_use ≠ 0 ∧ f.name = name then some 0
    else (find_file_index fs name).map (· + 1)

/-! ## Placement -/

/-- The second loop of `create_replicas`, `for (n = 0; n < MAX_NODES && created <
REPLICA_COUNT; n++)`: `todo` is `MAX_NODES - n`. -/
def create_replicas_scan (nodes : List Node) :
    Nat → Nat → List FileReplica → Nat → List FileReplica × Nat
  | 0, _, rs, created => (rs, created)
  | todo + 1, n, rs, created =>
    if created < REPLICA_COUNT then
      if node_is_up nodes n then
        create_replicas_scan nodes todo (n + 1)
          (rs.set created { node_id := (n : Int), is_active := 1 }) (created + 1)
      else create_replicas_scan nodes todo (n + 1) rs created
    else (rs, created)

/-- The function `create_replicas`: clear every slot, then place on the up nodes in
ascending order; returns the file entry and the number of replicas created. -/
def create_replicas (nodes : List Node) (f : FileEntry) : FileEntry × Nat :=
  let cleared := f.replicas.map (fun _ => ({ node_id := -1, is_active := 0 } : FileReplica))
  let r := create_replicas_scan nodes MAX_NODES 0 cleared 0
  ({ f with replicas := r.1 }, r.2)

/-! ## Healing -/

/-- The innermost loop of `heal_replication`, `for (r = 0; r < REPLICA_COUNT; r++)`:
the first inactive slot becomes an active replica on node `n` and the loop breaks;
`none` when the loop ends without finding an inactive slot. -/
def heal_fill (n : Int) : List FileReplica → Option (List FileReplica)
  | [] => none
  | r :: rs =>
    if r.is_active = 0 then some ({ node_id := n, is_active := 1 } :: rs)
    else (heal_fill n rs).map (fun rs' => r :: rs')

/-- The loop `for (n = 0; n < MAX_NODES; n++)` of `heal_replication` for one file;
`todo` is `MAX_NODES - n`. The local `found` is read by `if (found) break;` and is
assigned nowhere in the loop, so it is an argument and not a result. -/
def heal_scan (nodes : List Node) (found : Bool) :
    Nat → Nat → FileEntry → Nat → List HealEvent → FileEntry × Nat × List HealEvent
  | 0, _, f, active, ev => (f, active, ev)
  | todo + 1, n, f, active, ev =>
    if !(node_is_up nodes n) then heal_scan nodes found todo (n + 1) f active ev
    else if is_node_already_replica f (n : Int) then
      heal_scan nodes found todo (n + 1) f active ev
    else
      let r : FileEntry × Nat × List HealEvent :=
        match heal_fill (n : Int) f.replicas with
        | some rs => ({ f with replicas := rs }, active + 1, ev ++ [{ name := f.name, node := (n : Int) }])
        | none => (f, active, ev)
      if found then r
      else heal_scan nodes found todo (n + 1) r.1 r.2.1 r.2.2

/-- The loop `while (active < REPLICA_COUNT)` of `heal_replication` for one file, with
a bound `fuel` on the number of iterations; `none` when the bound is reached. -/
def heal_while (nodes : List Node) :
    Nat → FileEntry → Nat → List HealEvent → Option (FileEntry × List HealEvent)
  | 0, _, _, _ => none
  | fuel + 1, f, active, ev =>
    if active < REPLICA_COUNT then
      let found := false
      let r := heal_scan nodes found MAX_NODES 0 f active ev
      if !found then some (r.1, r.2.2)
      else heal_while nodes fuel r.1 r.2.1 r.2.2
    else some (f, ev)

/-- The body of the outer loop of `heal_replication` for a used file slot. Each turn of
the while loop that does not leave it raises `active`, so `REPLICA_COUNT + 1` turns
are enough (`heal_while_some` shows that one is). -/
def heal_file (nodes : List Node) (f : FileEntry) : FileEntry × List HealEvent :=
  match heal_while nodes (REPLICA_COUNT + 1) f (count_active_replicas f) [] with
  | some r => r
  | none => (f, [])

/-- The outer loop of `heal_replication`, `for (i = 0; i < MAX_FILES; i++)`, which skips
unused slots. -/
def heal_files (nodes : List Node) : List FileEntry → List FileEntry × List HealEvent
  | [] => ([], [])
  | f :: fs =>
    if f.in_use = 0 then ((f :: (heal_files nodes fs).1), (heal_files nodes fs).2)
    else
      ((heal_file nodes f).1 :: (heal_files nodes fs).1,
        (heal_file nodes f).2 ++ (heal_files nodes fs).2)

/-- The function `heal_replication`, with the healing lines it prints. -/
def heal_replication (s : State) : State × List HealEvent :=
  ({ s with files := (heal_files s.nodes s.files).1 }, (heal_files s.nodes s.files).2)

/-! ## File creation and reading -/

/-- The search `for (i = 0; i < MAX_FILES; i++) if (!files[i].in_use)` of `create_file`:
the index of the first unused slot, `none` for `index == -1`. -/
def find_free_slot : List FileEntry → Option Nat
  | [] => none
  | f :: fs => if f.in_use = 0 then some 0 else (find_free_slot fs).map (· + 1)

/-- The function `create_file`, for the name and the data that `read_line` delivered. -/
def create_file (s : State) (name data : List Char) : State × CreateResult :=
  if find_file_index s.files name ≠ none then (s, CreateResult.DuplicateName)
  else
    match find_free_slot s.files with
    | none => (s, CreateResult.CatalogFull)
    | some index =>
      let f := s.files.getD index FileEntry.zero
      let f1 : FileEntry :=
        { f with name := name.take (MAX_FILENAME - 1), data := data.take (MAX_DATA - 1),
                 in_use := 1 }
      let r := create_replicas s.nodes f1
      if r.2 = 0 then
        ({ s with files := s.files.set index { r.1 with in_use := 0 } },
          CreateResult.NoHealthyNodes)
      else ({ s with files := s.files.set index r.1 }, CreateResult.Stored r.2)

/-- The replica loop of `read_file`: the first active slot whose node id is in range and
whose node is up serves the read. -/
def read_scan (nodes : List Node) (f : FileEntry) : List FileReplica → ReadResult
  | [] => ReadResult.Unavailable
  | r :: rs =>
    if r.is_active = 0 then read_scan nodes f rs
    else if 0 ≤ r.node_id ∧ r.node_id < (MAX_NODES : Int) ∧ node_is_up nodes r.node_id.toNat then
      ReadResult.Served r.node_id f.name f.data
    else read_scan nodes f rs

/-- The function `read_file`, for the name that `read_line` delivered. -/
def read_file (s : State) (name : List Char) : State × ReadResult :=
  match find_file_index s.files name with
  | none => (s, ReadResult.NotFound)
  | some idx =>
    (s, read_scan s.nodes (s.files.getD idx FileEntry.zero)
      (s.files.getD idx FileEntry.zero).replicas)

/-! ## Node failure and recovery -/

/-- The loop of `fail_node` over one file's slots: slots on node `id` become inactive. -/
def invalidate_replicas (id : Int) (f : FileEntry) : FileEntry :=
  if f.in_use = 0 then f
  else
    { f with replicas := f.replicas.map (fun r =>
        if r.is_active ≠ 0 ∧ r.node_id = id then { r with is_active := 0 } else r) }

/-- The function `fail_node`, for the id that `scanf` parsed. -/
def fail_node (s : State) (id : Int) : State × NodeResult × List HealEvent :=
  if id < 0 ∨ id ≥ (MAX_NODES : Int) then (s, NodeResult.InvalidNode, [])
  else if !(node_is_up s.nodes id.toNat) then (s, NodeResult.AlreadyDown, [])
  else
    let nodes1 := s.nodes.set id.toNat { (s.nodes.getD id.toNat Node.zero) with is_up := 0 }
    let files1 := s.files.map (invalidate_replicas id)
    let h := heal_replication { nodes := nodes1, files := files1 }
    (h.1, NodeResult.Done, h.2)

/-- The function `recover_node`, for the id that `scanf` parsed. -/
def recover_node (s : State) (id : Int) : State × NodeResult × List HealEvent :=
  if id < 0 ∨ id ≥ (MAX_NODES : Int) then (s, NodeResult.InvalidNode, [])
  else if node_is_up s.nodes id.toNat then (s, NodeResult.AlreadyUp, [])
  else
    let nodes1 := s.nodes.set id.toNat { (s.nodes.getD id.toNat Node.zero) with is_up := 1 }
    let h := heal_replication { s with nodes := nodes1 }
    (h.1, NodeResult.Done, h.2)

/-- The states the program can be in: `main` calls `init_system` and then serves menu
choices. A name fits `char name[MAX_FILENAME]` and data fits `char data[MAX_DATA]`. -/
inductive Reachable : State → Prop
  | init : Reachable init_system
  | create {s : State} (name data : List Char) :
      Reachable s → name.length < MAX_FILENAME → data.length < MAX_DATA →
      Reachable (create_file s name data).1
  | read {s : State} (name : List Char) : Reachable s → Reachable (read_file s name).1
  | fail {s : State} (id : Int) : Reachable s → Reachable (fail_node s id).1
  | recover {s : State} (id : Int) : Reachable s → Reachable (recover_node s id).1

/-! ## Specification vocabulary and example states -/

/-- The node ids held by the active slots, in slot order. -/
def active_nodes (rs : List FileReplica) : List Int :=
  (rs.filter (fun r => r.is_active ≠ 0)).map (fun r => r.node_id)

/-- Every slot that is active in `rs` is the same slot in `rs2`; the lists have the same
length. -/
def SlotsKept (rs rs2 : List FileReplica) : Prop :=
  List.Forall₂ (fun r r2 => r.is_active ≠ 0 → r2 = r) rs rs2

/-- Every slot is active. -/
def AllActive (rs : List FileReplica) : Prop := ∀ r ∈ rs, r.is_active ≠ 0

/-- Healing has nothing left to do for `f`: the replication factor is met, or every up node
already holds a replica of `f`, or no slot of `f` is free. -/
def Settled (nodes : List Node) (f : FileEntry) : Prop :=
  REPLICA_COUNT ≤ count_active_replicas f ∨
  ∀ m, m < MAX_NODES → node_is_up nodes m = true →
    is_node_already_replica f (m : Int) = true ∨ AllActive f.replicas

/-- What `heal_replication` does to the file slot `f`. -/
def heal_slot (nodes : List Node) (f : FileEntry) : FileEntry :=
  if f.in_use = 0 then f else (heal_file nodes f).1

/-- File `a` with replicas on nodes 0 and 1 and a lost replica in slot 2. -/
def degraded_file : FileEntry :=
  { name := ['a'], data := ['x'],
    replicas := [{ node_id := 0, is_active := 1 }, { node_id := 1, is_active := 1 },
      { node_id := 2, is_active := 0 }],
    in_use := 1 }

/-- The state in the middle of `fail_node` for node 2, before healing: node 2 is down and
file `a`, which was placed on nodes 0, 1, 2, has lost its third replica. -/
def degraded_state : State :=
  { nodes := [{ id := 0, is_up := 1 }, { id := 1, is_up := 1 }, { id := 2, is_up := 0 },
      { id := 3, is_up := 1 }],
    files := degraded_file :: List.replicate 99 FileEntry.zero }

/-- The ids of the up nodes, in ascending order. -/
def up_nodes (nodes : List Node) : List Nat :=
  (List.range MAX_NODES).filter (node_is_up nodes)

/-- An active replica on node `n`, as `create_replicas` writes it. -/
def placed_on (n : Nat) : FileReplica := { node_id := (n : Int), is_active := 1 }

/-- A slot as the first loop of `create_replicas` leaves it. -/
def cleared_slot : FileReplica := { node_id := -1, is_active := 0 }

/-- Every file slot has `REPLICA_COUNT` replica slots, and the active slots of a used file
hold pairwise distinct node ids. -/
def FilesInv (fs : List FileEntry) : Prop :=
  ∀ f ∈ fs, f.replicas.length = REPLICA_COUNT ∧
    (f.in_use ≠ 0 → (active_nodes f.replicas).Nodup)

/-- The index of the first entry that satisfies `p`: the shape shared by the searches
`find_file_index` and `find_free_slot`. -/
def first_index {α : Type} (p : α → Bool) : List α → Option Nat
  | [] => none
  | a :: as => if p a then some 0 else (first_index p as).map (· + 1)

/-- The node id `id` names a node of the registry and that node is up: the guard
`node_id >= 0 && node_id < MAX_NODES && nodes[node_id].is_up` of `read_file`. -/
def node_id_up (nodes : List Node) (id : Int) : Prop :=
  0 ≤ id ∧ id < (MAX_NODES : Int) ∧ node_is_up nodes id.toNat = true

/-- The slot is active and its node is up. -/
def slot_live (nodes : List Node) (r : FileReplica) : Prop :=
  r.is_active ≠ 0 ∧ node_id_up nodes r.node_id

instance (nodes : List Node) (id : Int) : Decidable (node_id_up nodes id) := by
  unfold node_id_up
  infer_instance

instance (nodes : List Node) (r : FileReplica) : Decidable (slot_live nodes r) := by
  unfold slot_live
  infer_instance

/-- The file that a successful `create_file` stores: name and data as given (cut to the
buffer sizes), replicas on the first up nodes, marked used. -/
def new_file (nodes : List Node) (name data : List Char) : FileEntry :=
  { name := name.take (MAX_FILENAME - 1), data := data.take (MAX_DATA - 1),
    replicas := ((up_nodes nodes).take REPLICA_COUNT).map placed_on ++
      List.replicate (REPLICA_COUNT - ((up_nodes nodes).take REPLICA_COUNT).length) cleared_slot,
    in_use := 1 }

/-- The name of the `i`-th file of the full catalog: `f00`, `f01`, ..., `f99`. -/
def numbered_name (i : Nat) : List Char :=
  ['f', Char.ofNat (48 + i / 10), Char.ofNat (48 + i % 10)]

/-- The `i`-th file of the full catalog, after all four nodes have failed in ascending order:
placed on nodes 0, 1, 2, healed onto node 3 when node 0 failed, then all replicas lost. -/
def numbered_file (i : Nat) : FileEntry :=
  { name := numbered_name i, data := ['x'],
    replicas := [{ node_id := 3, is_active := 0 }, { node_id := 1, is_active := 0 },
      { node_id := 2, is_active := 0 }],
    in_use := 1 }

/-- All `MAX_FILES` slots are used and all four nodes are down. -/
def full_down_state : State :=
  { nodes := (List.range MAX_NODES).map (fun i => { id := (i : Int), is_up := 0 }),
    files := (List.range MAX_FILES).map numbered_file }

/-- The first `k` numbered files created one after the other. -/
def create_numbered : Nat → State → State
  | 0, s => s
  | k + 1, s => (create_file (create_numbered k s) (numbered_name k) ['x']).1

/-- The nodes 0, 1, 2, 3 failed one after the other. -/
def fail_all (s : State) : State :=
  (fail_node (fail_node (fail_node (fail_node s 0).1 1).1 2).1 3).1

/-- File `a` is stored, then node 2 fails: the state of scenario A. -/
def scenario_a_state : State :=
  (fail_node (create_file init_system ['a'] ['x']).1 2).1

/-- File `a` is stored, then every node fails: no file slot but the first is used. -/
def all_down_state : State :=
  fail_all (create_file init_system ['a'] ['x']).1

/-! ## Listing, state invariants and the healing procedure of the specification -/

/-- One file as `list_files` prints it: name, data, and for each active replica the node id
with `true` for ` UP` and `false` for ` DOWN`. -/
structure FileListing where
  name : List Char
  data : List Char
  replicas : List (Int × Bool)
deriving DecidableEq, Repr

/-- The replica loop of `list_files`: an active slot prints its node id and the health of
`nodes[nid]`. The source indexes `nodes` with `nid` unchecked, so the result is `none` when an
active slot holds an id outside the array. -/
def list_replicas (nodes : List Node) : List FileReplica → Option (List (Int × Bool))
  | [] => some []
  | r :: rs =>
    if r.is_active = 0 then list_replicas nodes rs
    else if 0 ≤ r.node_id ∧ r.node_id < (MAX_NODES : Int) then
      (list_replicas nodes rs).map (fun t => (r.node_id, node_is_up nodes r.node_id.toNat) :: t)
    else none

/-- The file loop of `list_files`, which skips unused slots. -/
def list_files_from (nodes : List Node) : List FileEntry → Option (List FileListing)
  | [] => some []
  | f :: fs =>
    if f.in_use = 0 then list_files_from nodes fs
    else
      match list_replicas nodes f.replicas with
      | none => none
      | some rl =>
        (list_files_from nodes fs).map
          (fun t => { name := f.name, data := f.data, replicas := rl } :: t)

/-- The function `list_files`. -/
def list_files (s : State) : Option (List FileListing) := list_files_from s.nodes s.files

/-- Every active slot of `f` holds the id of a node of the registry that is up. -/
def LiveSlots (nodes : List Node) (f : FileEntry) : Prop :=
  ∀ r ∈ f.replicas, r.is_active ≠ 0 → node_id_up nodes r.node_id

/-- The registry has `MAX_NODES` nodes, and every used file has its active replicas on up
nodes and is settled. -/
def StateInv (s : State) : Prop :=
  s.nodes.length = MAX_NODES ∧
  ∀ f ∈ s.files, f.in_use ≠ 0 → LiveSlots s.nodes f ∧ Settled s.nodes f

/-- No two used file slots hold the same name. -/
def NamesUnique (fs : List FileEntry) : Prop :=
  ∀ (i j : Nat) (f g : FileEntry), i ≠ j → fs[i]? = some f → fs[j]? = some g →
    f.in_use ≠ 0 → g.in_use ≠ 0 → f.name ≠ g.name

/-- The lowest-id up node that does not already hold an active replica of `f`
(specification 4.4, step 1). -/
def spec_candidate (nodes : List Node) (f : FileEntry) : Option Nat :=
  first_index (fun n => node_is_up nodes n && !is_node_already_replica f (n : Int))
    (List.range MAX_NODES)

/-- Occupy the first inactive replica slot with node `n` and mark it active
(specification 4.4, step 2). -/
def spec_occupy (n : Int) : List FileReplica → List FileReplica
  | [] => []
  | r :: rs =>
    if r.is_active = 0 then { node_id := n, is_active := 1 } :: rs else r :: spec_occupy n rs

/-- The healing of one file as the specification words it: while the file has fewer than
`REPLICA_COUNT` active replicas, take the candidate node, occupy the first inactive slot and
emit the event; stop for this file when there is no candidate. `fuel` bounds the number of
turns, `none` when it runs out. -/
def spec_heal_file (nodes : List Node) : Nat → FileEntry → Option (FileEntry × List HealEvent)
  | 0, _ => none
  | fuel + 1, f =>
    if count_active_replicas f < REPLICA_COUNT then
      match spec_candidate nodes f with
      | none => some (f, [])
      | some n =>
        (spec_heal_file nodes fuel { f with replicas := spec_occupy (n : Int) f.replicas }).map
          (fun r => (r.1, { name := f.name, node := (n : Int) } :: r.2))
    else some (f, [])

/-- The healing of the catalog as the specification words it: every used file in slot
order. -/
def spec_heal_files (nodes : List Node) (fuel : Nat) :
    List FileEntry → Option (List FileEntry × List HealEvent)
  | [] => some ([], [])
  | f :: fs =>
    if f.in_use = 0 then
      (spec_heal_files nodes fuel fs).map (fun r => (f :: r.1, r.2))
    else
      match spec_heal_file nodes fuel f with
      | none => none
      | some h => (spec_heal_files nodes fuel fs).map (fun r => (h.1 :: r.1, h.2 ++ r.2))

/-- The procedure `heal()` of the specification on a state. -/
def spec_heal (fuel : Nat) (s : State) : Option (State × List HealEvent) :=
  (spec_heal_files s.nodes fuel s.files).map (fun r => ({ s with files := r.1 }, r.2))

/-- File `a` as `create_file` stores it while all nodes are up: replicas on nodes 0, 1, 2. -/
def stored_file : FileEntry :=
  { name := ['a'], data := ['x'],
    replicas := [{ node_id := 0, is_active := 1 }, { node_id := 1, is_active := 1 },
      { node_id := 2, is_active := 1 }],
    in_use := 1 }

/-- File `a` is stored and all nodes are up: the start of scenario A. -/
def stored_state : State := (create_file init_system ['a'] ['x']).1

/-! ## Lemmas on slots -/

theorem is_node_already_replica_iff (f : FileEntry) (n : Int) :
    is_node_already_replica f n = true ↔ n ∈ active_nodes f.replicas := by
  simp only [is_node_already_replica, active_nodes, List.any_eq_true, List.mem_map,
    List.mem_filter, decide_eq_true_eq]
  constructor
  · rintro ⟨r, hr, ha, hn⟩
    exact ⟨r, ⟨hr, ha⟩, hn⟩
  · rintro ⟨r, ⟨hr, ha⟩, hn⟩
    exact ⟨r, hr, ha, hn⟩

theorem SlotsKept.refl (rs : List FileReplica) : SlotsKept rs rs := by
  induction rs with
  | nil => exact List.Forall₂.nil
  | cons r rs ih => exact List.Forall₂.cons (fun _ => rfl) ih

theorem SlotsKept.trans {a b c : List FileReplica} (h1 : SlotsKept a b) (h2 : SlotsKept b c) :
    SlotsKept a c := by
  induction h1 generalizing c with
  | nil => exact h2
  | cons hab _ ih =>
    cases h2 with
    | cons hbc h2t =>
      refine List.Forall₂.cons (fun ha => ?_) (ih h2t)
      have e := hab ha
      subst e
      exact hbc ha

theorem SlotsKept.length_eq {a b : List FileReplica} (h : SlotsKept a b) :
    b.length = a.length := (List.Forall₂.length_eq h).symm

theorem SlotsKept.mem_active {a b : List FileReplica} (h : SlotsKept a b) {n : Int}
    (hn : n ∈ active_nodes a) : n ∈ active_nodes b := by
  induction h with
  | nil => exact hn
  | @cons r r2 rs rs2 hab _ ih =>
    simp only [active_nodes, List.mem_map, List.mem_filter, List.mem_cons,
      decide_eq_true_eq] at hn ih ⊢
    obtain ⟨x, ⟨hx | hx, hxa⟩, hxn⟩ := hn
    · subst hx
      exact ⟨x, ⟨Or.inl (hab hxa).symm, hxa⟩, hxn⟩
    · obtain ⟨y, ⟨hy, hya⟩, hyn⟩ := ih ⟨x, ⟨hx, hxa⟩, hxn⟩
      exact ⟨y, ⟨Or.inr hy, hya⟩, hyn⟩

theorem SlotsKept.allActive {a b : List FileReplica} (h : SlotsKept a b)
    (ha : AllActive a) : AllActive b := by
  induction h with
  | nil => exact ha
  | @cons r r2 rs rs2 hab _ ih =>
    intro x hx
    rcases List.mem_cons.1 hx with hx | hx
    · have hr : r.is_active ≠ 0 := ha r (List.mem_cons_self _ _)
      rw [hx, hab hr]
      exact hr
    · exact ih (fun y hy => ha y (List.mem_cons_of_mem _ hy)) x hx

theorem SlotsKept.countP_le {a b : List FileReplica} (h : SlotsKept a b) :
    a.countP (fun r => r.is_active ≠ 0) ≤ b.countP (fun r => r.is_active ≠ 0) := by
  induction h with
  | nil => exact le_refl _
  | @cons r r2 rs rs2 hab _ ih =>
    by_cases hr : r.is_active = 0
    · rw [List.countP_cons_of_neg _ _ (by simpa using hr), List.countP_cons]
      omega
    · have e := hab hr
      subst e
      rw [List.countP_cons_of_pos _ _ (by simpa using hr),
        List.countP_cons_of_pos _ _ (by simpa using hr)]
      omega

theorem SlotsKept.getElem? {a b : List FileReplica} (h : SlotsKept a b) (i : Nat)
    (x : FileReplica) (hx : a[i]? = some x) (hact : x.is_active ≠ 0) : b[i]? = some x := by
  induction h generalizing i with
  | nil => simp at hx
  | @cons r r2 rs rs2 hab _ ih =>
    cases i with
    | zero =>
      simp only [List.getElem?_cons_zero, Option.some.injEq] at hx ⊢
      subst hx
      exact hab hact
    | succ i =>
      simp only [List.getElem?_cons_succ] at hx ⊢
      exact ih i hx

theorem allActive_countP {rs : List FileReplica} (h : AllActive rs) :
    rs.countP (fun r => r.is_active ≠ 0) = rs.length := by
  rw [List.countP_eq_length]
  intro r hr
  simpa using h r hr

/-! ## Lemmas on `heal_fill` -/

theorem heal_fill_eq_none_iff (n : Int) (rs : List FileReplica) :
    heal_fill n rs = none ↔ AllActive rs := by
  induction rs with
  | nil => simp [heal_fill, AllActive]
  | cons r rs ih =>
    by_cases hr : r.is_active = 0
    · simp only [heal_fill, hr, if_true]
      constructor
      · intro h
        cases h
      · intro h
        exact absurd hr (h r (List.mem_cons_self _ _))
    · simp only [heal_fill, hr, if_false, Option.map_eq_none', ih]
      constructor
      · intro h x hx
        rcases List.mem_cons.1 hx with hx | hx
        · rw [hx]
          exact hr
        · exact h x hx
      · intro h x hx
        exact h x (List.mem_cons_of_mem _ hx)

theorem heal_fill_kept {n : Int} {rs rs2 : List FileReplica} (h : heal_fill n rs = some rs2) :
    SlotsKept rs rs2 := by
  induction rs generalizing rs2 with
  | nil => simp [heal_fill] at h
  | cons r rs ih =>
    by_cases hr : r.is_active = 0
    · simp only [heal_fill, hr, if_true, Option.some.injEq] at h
      subst h
      exact List.Forall₂.cons (fun ha => absurd hr ha) (SlotsKept.refl rs)
    · simp only [heal_fill, hr, if_false, Option.map_eq_some'] at h
      obtain ⟨t, ht, e⟩ := h
      subst e
      exact List.Forall₂.cons (fun _ => rfl) (ih ht)

theorem heal_fill_active_perm {n : Int} {rs rs2 : List FileReplica}
    (h : heal_fill n rs = some rs2) : (active_nodes rs2).Perm (n :: active_nodes rs) := by
  induction rs generalizing rs2 with
  | nil => simp [heal_fill] at h
  | cons r rs ih =>
    by_cases hr : r.is_active = 0
    · simp only [heal_fill, hr, if_true, Option.some.injEq] at h
      subst h
      simp [active_nodes, hr]
    · simp only [heal_fill, hr, if_false, Option.map_eq_some'] at h
      obtain ⟨t, ht, e⟩ := h
      subst e
      have p := ih ht
      simp only [active_nodes] at p ⊢
      simp only [List.filter_cons, hr, ne_eq, not_false_eq_true, decide_True, if_true,
        List.map_cons]
      exact (List.Perm.cons _ p).trans (List.Perm.swap _ _ _)

/-! ## Lemmas on the healing loops -/

theorem heal_scan_zero (nodes : List Node) (found : Bool) (n : Nat) (f : FileEntry)
    (a : Nat) (ev : List HealEvent) : heal_scan nodes found 0 n f a ev = (f, a, ev) := rfl

theorem heal_scan_down (nodes : List Node) (todo n : Nat) (f : FileEntry) (a : Nat)
    (ev : List HealEvent) (h : node_is_up nodes n = false) :
    heal_scan nodes false (todo + 1) n f a ev = heal_scan nodes false todo (n + 1) f a ev := by
  simp [heal_scan, h]

theorem heal_scan_held (nodes : List Node) (todo n : Nat) (f : FileEntry) (a : Nat)
    (ev : List HealEvent) (h : is_node_already_replica f (n : Int) = true) :
    heal_scan nodes false (todo + 1) n f a ev = heal_scan nodes false todo (n + 1) f a ev := by
  simp [heal_scan, h]

theorem heal_scan_full (nodes : List Node) (todo n : Nat) (f : FileEntry) (a : Nat)
    (ev : List HealEvent) (h : heal_fill (n : Int) f.replicas = none) :
    heal_scan nodes false (todo + 1) n f a ev = heal_scan nodes false todo (n + 1) f a ev := by
  simp only [heal_scan, h]
  split_ifs
  · rfl
  · rfl
  · exact False.elim ‹False›
  · rfl

theorem heal_scan_fill (nodes : List Node) (todo n : Nat) (f : FileEntry) (a : Nat)
    (ev : List HealEvent) (rs : List FileReplica) (hu : node_is_up nodes n = true)
    (hh : is_node_already_replica f (n : Int) = false)
    (h : heal_fill (n : Int) f.replicas = some rs) :
    heal_scan nodes false (todo + 1) n f a ev =
      heal_scan nodes false todo (n + 1) { f with replicas := rs } (a + 1)
        (ev ++ [{ name := f.name, node := (n : Int) }]) := by
  simp [heal_scan, hu, hh, h]

/-- The four ways one turn of the node loop can go: the node is down, it already holds a
replica, no slot is free, or the first free slot is filled. -/
theorem heal_scan_cases (nodes : List Node) (todo n : Nat) (f : FileEntry) (a : Nat)
    (ev : List HealEvent) :
    heal_scan nodes false (todo + 1) n f a ev = heal_scan nodes false todo (n + 1) f a ev ∨
    ∃ rs, node_is_up nodes n = true ∧ is_node_already_replica f (n : Int) = false ∧
      heal_fill (n : Int) f.replicas = some rs ∧
      heal_scan nodes false (todo + 1) n f a ev =
        heal_scan nodes false todo (n + 1) { f with replicas := rs } (a + 1)
          (ev ++ [{ name := f.name, node := (n : Int) }]) := by
  cases hu : node_is_up nodes n with
  | false => exact Or.inl (heal_scan_down nodes todo n f a ev hu)
  | true =>
    cases hh : is_node_already_replica f (n : Int) with
    | true => exact Or.inl (heal_scan_held nodes todo n f a ev hh)
    | false =>
      cases hf : heal_fill (n : Int) f.replicas with
      | none => exact Or.inl (heal_scan_full nodes todo n f a ev hf)
      | some rs => exact Or.inr ⟨rs, rfl, rfl, rfl, heal_scan_fill nodes todo n f a ev rs hu hh hf⟩

/-- The node loop keeps name, data and `in_use`, and keeps every active slot. -/
theorem heal_scan_frame (nodes : List Node) (todo n : Nat) (f : FileEntry) (a : Nat)
    (ev : List HealEvent) :
    (heal_scan nodes false todo n f a ev).1.name = f.name ∧
    (heal_scan nodes false todo n f a ev).1.data = f.data ∧
    (heal_scan nodes false todo n f a ev).1.in_use = f.in_use ∧
    SlotsKept f.replicas (heal_scan nodes false todo n f a ev).1.replicas := by
  induction todo generalizing n f a ev with
  | zero => exact ⟨rfl, rfl, rfl, SlotsKept.refl _⟩
  | succ todo ih =>
    rcases heal_scan_cases nodes todo n f a ev with h | ⟨rs, _, _, hf, h⟩
    · rw [h]
      exact ih _ _ _ _
    · rw [h]
      obtain ⟨h1, h2, h3, h4⟩ := ih (n + 1) { f with replicas := rs } (a + 1)
        (ev ++ [{ name := f.name, node := (n : Int) }])
      exact ⟨h1, h2, h3, (heal_fill_kept hf).trans h4⟩

/-- After the node loop every up node it visited holds a replica, or no slot is free. -/
theorem heal_scan_eligible (nodes : List Node) (todo n : Nat) (f : FileEntry) (a : Nat)
    (ev : List HealEvent) (m : Nat) (h1 : n ≤ m) (h2 : m < n + todo)
    (hm : node_is_up nodes m = true) :
    is_node_already_replica (heal_scan nodes false todo n f a ev).1 (m : Int) = true ∨
    AllActive (heal_scan nodes false todo n f a ev).1.replicas := by
  induction todo generalizing n f a ev with
  | zero => omega
  | succ todo ih =>
    by_cases hnm : m = n
    · subst hnm
      cases hh : is_node_already_replica f (m : Int) with
      | true =>
        left
        rw [is_node_already_replica_iff] at hh ⊢
        exact (heal_scan_frame nodes (todo + 1) m f a ev).2.2.2.mem_active hh
      | false =>
        cases hf : heal_fill (m : Int) f.replicas with
        | none =>
          right
          exact (heal_scan_frame nodes (todo + 1) m f a ev).2.2.2.allActive
            ((heal_fill_eq_none_iff _ _).1 hf)
        | some rs =>
          left
          rw [heal_scan_fill nodes todo m f a ev rs hm hh hf, is_node_already_replica_iff]
          refine (heal_scan_frame nodes todo (m + 1) _ _ _).2.2.2.mem_active ?_
          exact (heal_fill_active_perm hf).symm.subset (List.mem_cons_self _ _)
    · rcases heal_scan_cases nodes todo n f a ev with h | ⟨rs, _, _, _, h⟩
      · rw [h]
        exact ih (n + 1) f a ev (by omega) (by omega)
      · rw [h]
        exact ih (n + 1) _ _ _ (by omega) (by omega)

/-- The node loop changes nothing when every up node it visits already holds a replica or
no slot is free. -/
theorem heal_scan_noop (nodes : List Node) (todo n : Nat) (f : FileEntry) (a : Nat)
    (ev : List HealEvent)
    (h : ∀ m, n ≤ m → m < n + todo → node_is_up nodes m = true →
      is_node_already_replica f (m : Int) = true ∨ AllActive f.replicas) :
    heal_scan nodes false todo n f a ev = (f, a, ev) := by
  induction todo generalizing n with
  | zero => rfl
  | succ todo ih =>
    rcases heal_scan_cases nodes todo n f a ev with e | ⟨rs, hu, hh, hf, _⟩
    · rw [e]
      exact ih (n + 1) (fun m h1 h2 hm => h m (by omega) (by omega) hm)
    · rcases h n (le_refl n) (by omega) hu with h3 | h3
      · rw [hh] at h3
        cases h3
      · rw [(heal_fill_eq_none_iff _ _).2 h3] at hf
        cases hf

/-- The node loop keeps the active node ids of a file pairwise distinct. -/
theorem heal_scan_nodup (nodes : List Node) (todo n : Nat) (f : FileEntry) (a : Nat)
    (ev : List HealEvent) (h : (active_nodes f.replicas).Nodup) :
    (active_nodes (heal_scan nodes false todo n f a ev).1.replicas).Nodup := by
  induction todo generalizing n f a ev with
  | zero => exact h
  | succ todo ih =>
    rcases heal_scan_cases nodes todo n f a ev with e | ⟨rs, _, hh, hf, e⟩
    · rw [e]
      exact ih _ _ _ _ h
    · rw [e]
      refine ih _ _ _ _ ?_
      refine (heal_fill_active_perm hf).nodup_iff.2 (List.nodup_cons.2 ⟨?_, h⟩)
      intro hmem
      rw [(is_node_already_replica_iff f (n : Int)).2 hmem] at hh
      cases hh

/-- The while loop of `heal_replication` ends for every positive bound, after at most one
turn: it is left at once when `active` is `REPLICA_COUNT` or more, and otherwise after the
node loop, since `found` is still `0` there. -/
theorem heal_while_some (nodes : List Node) (fuel : Nat) (f : FileEntry) (a : Nat)
    (ev : List HealEvent) :
    heal_while nodes (fuel + 1) f a ev =
      some (if a < REPLICA_COUNT then
          ((heal_scan nodes false MAX_NODES 0 f a ev).1,
            (heal_scan nodes false MAX_NODES 0 f a ev).2.2)
        else (f, ev)) := by
  simp only [heal_while]
  split_ifs <;> simp_all

theorem heal_file_eq (nodes : List Node) (f : FileEntry) :
    heal_file nodes f =
      if count_active_replicas f < REPLICA_COUNT then
        ((heal_scan nodes false MAX_NODES 0 f (count_active_replicas f) []).1,
          (heal_scan nodes false MAX_NODES 0 f (count_active_replicas f) []).2.2)
      else (f, []) := by
  simp only [heal_file, heal_while_some]

theorem heal_file_frame (nodes : List Node) (f : FileEntry) :
    (heal_file nodes f).1.name = f.name ∧ (heal_file nodes f).1.data = f.data ∧
    (heal_file nodes f).1.in_use = f.in_use ∧
    SlotsKept f.replicas (heal_file nodes f).1.replicas := by
  rw [heal_file_eq]
  split_ifs
  · exact heal_scan_frame nodes MAX_NODES 0 f _ _
  · exact ⟨rfl, rfl, rfl, SlotsKept.refl _⟩

theorem heal_file_settled (nodes : List Node) (f : FileEntry) :
    Settled nodes (heal_file nodes f).1 := by
  rw [heal_file_eq]
  split_ifs with h
  · right
    intro m hm hu
    exact heal_scan_eligible nodes MAX_NODES 0 f _ _ m (Nat.zero_le m) (by omega) hu
  · left
    exact Nat.le_of_not_lt h

theorem heal_file_of_settled (nodes : List Node) (f : FileEntry) (h : Settled nodes f) :
    heal_file nodes f = (f, []) := by
  rw [heal_file_eq]
  split_ifs with hc
  · rcases h with h | h
    · exact absurd hc (Nat.not_lt.2 h)
    · rw [heal_scan_noop nodes MAX_NODES 0 f _ _ (fun m _ h2 hu => h m (by omega) hu)]
  · rfl

theorem heal_file_nodup (nodes : List Node) (f : FileEntry)
    (h : (active_nodes f.replicas).Nodup) :
    (active_nodes (heal_file nodes f).1.replicas).Nodup := by
  rw [heal_file_eq]
  split_ifs
  · exact heal_scan_nodup nodes MAX_NODES 0 f _ _ h
  · exact h

theorem heal_files_fst (nodes : List Node) (fs : List FileEntry) :
    (heal_files nodes fs).1 = fs.map (heal_slot nodes) := by
  induction fs with
  | nil => rfl
  | cons f fs ih =>
    by_cases h : f.in_use = 0
    · simp [heal_files, heal_slot, h, ih]
    · simp [heal_files, heal_slot, h, ih]

theorem heal_slot_frame (nodes : List Node) (f : FileEntry) :
    (heal_slot nodes f).name = f.name ∧ (heal_slot nodes f).data = f.data ∧
    (heal_slot nodes f).in_use = f.in_use ∧
    SlotsKept f.replicas (heal_slot nodes f).replicas := by
  unfold heal_slot
  split_ifs
  · exact ⟨rfl, rfl, rfl, SlotsKept.refl _⟩
  · exact heal_file_frame nodes f

theorem heal_files_of_settled (nodes : List Node) (fs : List FileEntry)
    (h : ∀ f ∈ fs, f.in_use ≠ 0 → Settled nodes f) : heal_files nodes fs = (fs, []) := by
  induction fs with
  | nil => rfl
  | cons f fs ih =>
    have ih2 := ih (fun g hg => h g (List.mem_cons_of_mem _ hg))
    by_cases hu : f.in_use = 0
    · simp [heal_files, hu, ih2]
    · simp [heal_files, hu, ih2, heal_file_of_settled nodes f (h f (List.mem_cons_self _ _) hu)]

theorem heal_files_settled (nodes : List Node) (fs : List FileEntry) :
    ∀ f ∈ (heal_files nodes fs).1, f.in_use ≠ 0 → Settled nodes f := by
  rw [heal_files_fst]
  intro f hf hu
  obtain ⟨g, _, e⟩ := List.mem_map.1 hf
  subst e
  unfold heal_slot at hu ⊢
  split_ifs at hu ⊢ with h0
  · exact absurd h0 hu
  · exact heal_file_settled nodes g

/-! ## Healing: the claims -/

/-- C3: after `heal_replication` every used file has exactly `REPLICA_COUNT` active replicas
or every up node already holds one of its active replicas. -/
theorem heal_replication_factor_or_exhausted (s : State)
    (hlen : ∀ f ∈ s.files, f.replicas.length = REPLICA_COUNT) :
    ∀ f ∈ (heal_replication s).1.files, f.in_use ≠ 0 →
      count_active_replicas f = REPLICA_COUNT ∨
      ∀ n, n < MAX_NODES → node_is_up (heal_replication s).1.nodes n = true →
        is_node_already_replica f (n : Int) = true := by
  intro f hf hu
  have hset : Settled s.nodes f := heal_files_settled s.nodes s.files f hf hu
  have hl : f.replicas.length = REPLICA_COUNT := by
    have hf2 : f ∈ s.files.map (heal_slot s.nodes) := by
      rw [← heal_files_fst]
      exact hf
    obtain ⟨g, hg, e⟩ := List.mem_map.1 hf2
    rw [← e, (heal_slot_frame s.nodes g).2.2.2.length_eq]
    exact hlen g hg
  have hle : count_active_replicas f ≤ REPLICA_COUNT := by
    rw [← hl]
    exact List.countP_le_length _
  rcases hset with h | h
  · left
    exact Nat.le_antisymm hle h
  · by_cases hall : AllActive f.replicas
    · left
      unfold count_active_replicas
      rw [allActive_countP hall, hl]
    · right
      intro n hn hup
      rcases h n hn hup with h1 | h1
      · exact h1
      · exact absurd h1 hall

/-- C3 at `degraded_state`. -/
theorem heal_replication_factor_or_exhausted_witness :
    (∀ f ∈ degraded_state.files, f.replicas.length = REPLICA_COUNT) ∧
    ∀ f ∈ (heal_replication degraded_state).1.files, f.in_use ≠ 0 →
      count_active_replicas f = REPLICA_COUNT ∨
      ∀ n, n < MAX_NODES → node_is_up (heal_replication degraded_state).1.nodes n = true →
        is_node_already_replica f (n : Int) = true :=
  ⟨by simp [degraded_state, degraded_file, FileEntry.zero],
    heal_replication_factor_or_exhausted degraded_state
      (by simp [degraded_state, degraded_file, FileEntry.zero])⟩

/-- C4: healing is idempotent. A second `heal_replication` right after a first one leaves
the node registry and the file catalog exactly as they are and prints no healing line. -/
theorem heal_replication_idempotent (s : State) :
    heal_replication (heal_replication s).1 = ((heal_replication s).1, []) := by
  have h := heal_files_of_settled s.nodes (heal_files s.nodes s.files).1
    (heal_files_settled s.nodes s.files)
  simp only [heal_replication, h]

/-- C5: `heal_replication` only fills empty slots. The node registry is unchanged, and the
file in every slot keeps its name, data and `in_use`, keeps every slot that was active
(same index, same node id, still active), and does not lose active replicas. -/
theorem heal_replication_only_fills (s : State) :
    (heal_replication s).1.nodes = s.nodes ∧
    (heal_replication s).1.files.length = s.files.length ∧
    ∀ (i : Nat) (f : FileEntry), s.files[i]? = some f →
      ∃ f2, (heal_replication s).1.files[i]? = some f2 ∧
        f2.name = f.name ∧ f2.data = f.data ∧ f2.in_use = f.in_use ∧
        f2.replicas.length = f.replicas.length ∧
        (∀ (r : Nat) (x : FileReplica), f.replicas[r]? = some x → x.is_active ≠ 0 →
          f2.replicas[r]? = some x) ∧
        count_active_replicas f ≤ count_active_replicas f2 := by
  refine ⟨rfl, ?_, ?_⟩
  · simp [heal_replication, heal_files_fst]
  · intro i f hf
    refine ⟨heal_slot s.nodes f, ?_, ?_⟩
    · simp [heal_replication, heal_files_fst, hf]
    · obtain ⟨h1, h2, h3, h4⟩ := heal_slot_frame s.nodes f
      exact ⟨h1, h2, h3, h4.length_eq, fun r x hx ha => h4.getElem? r x hx ha, h4.countP_le⟩

/-! ## Placement: lemmas and claim -/

/-- The placement loop, started at node `n` with the slots `P` already written and the
slots `R` still to write, writes the next up nodes over the first slots of `R`. -/
theorem create_replicas_scan_eq (nodes : List Node) (todo n : Nat) (P R : List FileReplica)
    (h : P.length + R.length = REPLICA_COUNT) :
    create_replicas_scan nodes todo n (P ++ R) P.length =
      (P ++ ((((List.range' n todo).filter (node_is_up nodes)).take R.length).map placed_on ++
          R.drop (((List.range' n todo).filter (node_is_up nodes)).take R.length).length),
        P.length + (((List.range' n todo).filter (node_is_up nodes)).take R.length).length) := by
  induction todo generalizing n P R with
  | zero => simp [create_replicas_scan]
  | succ todo ih =>
    cases R with
    | nil =>
      have hP : ¬ P.length < REPLICA_COUNT := by
        simp only [List.length_nil] at h
        omega
      simp [create_replicas_scan, hP]
    | cons r R =>
      have hP : P.length < REPLICA_COUNT := by
        simp only [List.length_cons] at h
        omega
      have h2 : (P ++ [placed_on n]).length + R.length = REPLICA_COUNT := by
        simp only [List.length_append, List.length_cons, List.length_nil] at h ⊢
        omega
      cases hu : node_is_up nodes n with
      | true =>
        have e : (P ++ r :: R).set P.length { node_id := (n : Int), is_active := 1 } =
            (P ++ [placed_on n]) ++ R := by
          simp [placed_on]
        have e2 : P.length + 1 = (P ++ [placed_on n]).length := by simp
        rw [create_replicas_scan, if_pos hP, if_pos hu, e, e2, ih (n + 1) _ R h2,
          List.range'_succ, List.filter_cons_of_pos (by simpa using hu)]
        simp only [List.length_cons, List.take_succ_cons, List.map_cons, List.drop_succ_cons,
          List.append_assoc, List.singleton_append, List.length_append, List.length_nil,
          Prod.mk.injEq, true_and]
        refine ⟨by simp, ?_⟩
        generalize (List.take R.length
          (List.filter (node_is_up nodes) (List.range' (n + 1) todo))).length = k
        omega
      | false =>
        rw [create_replicas_scan, if_pos hP, if_neg (by simp [hu]), ih (n + 1) P (r :: R) h,
          List.range'_succ, List.filter_cons_of_neg (by simpa using hu)]

/-- Closed form of `create_replicas`: the first `REPLICA_COUNT` up nodes in ascending order,
then cleared slots. -/
theorem create_replicas_eq (nodes : List Node) (f : FileEntry)
    (hlen : f.replicas.length = REPLICA_COUNT) :
    create_replicas nodes f =
      ({ f with replicas := (((up_nodes nodes).take REPLICA_COUNT).map placed_on ++
          List.replicate (REPLICA_COUNT - ((up_nodes nodes).take REPLICA_COUNT).length)
            cleared_slot) },
        ((up_nodes nodes).take REPLICA_COUNT).length) := by
  have hc : f.replicas.map (fun _ => ({ node_id := -1, is_active := 0 } : FileReplica)) =
      List.replicate REPLICA_COUNT cleared_slot := by
    rw [← hlen]
    exact List.map_const f.replicas cleared_slot
  have h := create_replicas_scan_eq nodes MAX_NODES 0 [] (List.replicate REPLICA_COUNT cleared_slot)
    (by simp)
  simp only [List.nil_append, List.length_nil, Nat.zero_add, List.length_replicate,
    List.drop_replicate, ← List.range_eq_range'] at h
  simp only [create_replicas, hc, h, up_nodes]

/-- C2: `create_replicas` returns `k = min(REPLICA_COUNT, number of up nodes)`; slot `i` for
`i < k` is active on the `i`-th up node in ascending id order, every slot from `k` on is
inactive (cleared), whatever the slots held before. -/
theorem create_replicas_places_first_up_nodes (nodes : List Node) (f : FileEntry)
    (hlen : f.replicas.length = REPLICA_COUNT) :
    (create_replicas nodes f).2 = min REPLICA_COUNT (up_nodes nodes).length ∧
    (∀ i, i < (create_replicas nodes f).2 →
      ∃ n, (up_nodes nodes)[i]? = some n ∧
        (create_replicas nodes f).1.replicas[i]? =
          some { node_id := (n : Int), is_active := 1 }) ∧
    (∀ i, (create_replicas nodes f).2 ≤ i → i < REPLICA_COUNT →
      (create_replicas nodes f).1.replicas[i]? = some { node_id := -1, is_active := 0 }) ∧
    (create_replicas nodes f).1.replicas.length = REPLICA_COUNT := by
  rw [create_replicas_eq nodes f hlen]
  have hT : ((up_nodes nodes).take REPLICA_COUNT).length =
      min REPLICA_COUNT (up_nodes nodes).length := List.length_take _ _
  refine ⟨hT, ?_, ?_, ?_⟩
  · intro i hi
    simp only at hi
    have hi2 : i < (up_nodes nodes).length := by
      rw [hT] at hi
      exact lt_of_lt_of_le hi (min_le_right _ _)
    have hi3 : i < REPLICA_COUNT := by
      rw [hT] at hi
      exact lt_of_lt_of_le hi (min_le_left _ _)
    refine ⟨(up_nodes nodes)[i], List.getElem?_eq_getElem hi2, ?_⟩
    simp only
    rw [List.getElem?_append_left (by simpa using hi), List.getElem?_map,
      List.getElem?_take_of_lt hi3, List.getElem?_eq_getElem hi2]
    rfl
  · intro i hi hi3
    simp only at hi ⊢
    rw [List.getElem?_append_right (by simpa using hi), List.getElem?_replicate,
      if_pos (by simp only [List.length_map]; omega)]
    rfl
  · simp only [List.length_append, List.length_map, List.length_replicate]
    have : ((up_nodes nodes).take REPLICA_COUNT).length ≤ REPLICA_COUNT := by
      rw [hT]
      exact min_le_left _ _
    omega

/-- C2 at the registry of `degraded_state` (nodes 0, 1 and 3 up) and the entry
`degraded_file`. -/
theorem create_replicas_places_first_up_nodes_witness :
    degraded_file.replicas.length = REPLICA_COUNT ∧
    ((create_replicas degraded_state.nodes degraded_file).2 =
        min REPLICA_COUNT (up_nodes degraded_state.nodes).length ∧
      (∀ i, i < (create_replicas degraded_state.nodes degraded_file).2 →
        ∃ n, (up_nodes degraded_state.nodes)[i]? = some n ∧
          (create_replicas degraded_state.nodes degraded_file).1.replicas[i]? =
            some { node_id := (n : Int), is_active := 1 }) ∧
      (∀ i, (create_replicas degraded_state.nodes degraded_file).2 ≤ i → i < REPLICA_COUNT →
        (create_replicas degraded_state.nodes degraded_file).1.replicas[i]? =
          some { node_id := -1, is_active := 0 }) ∧
      (create_replicas degraded_state.nodes degraded_file).1.replicas.length = REPLICA_COUNT) :=
  ⟨by decide, create_replicas_places_first_up_nodes degraded_state.nodes degraded_file (by decide)⟩

/-! ## The replica invariant on reachable states -/

theorem active_nodes_nodup_iff (rs : List FileReplica) :
    (active_nodes rs).Nodup ↔
      ∀ (i j : Nat) (x y : FileReplica), i ≠ j → rs[i]? = some x → rs[j]? = some y →
        x.is_active ≠ 0 → y.is_active ≠ 0 → x.node_id ≠ y.node_id := by
  unfold active_nodes List.Nodup
  rw [List.pairwise_map]
  have hf : (rs.filter (fun r => decide (r.is_active ≠ 0))) =
      rs.filter (fun r => decide ((fun r : FileReplica => r.is_active ≠ 0) r)) := rfl
  rw [hf, List.pairwise_filter, List.pairwise_iff_getElem]
  constructor
  · intro h i j x y hij hx hy hxa hya
    obtain ⟨hi, rfl⟩ := List.getElem?_eq_some.1 hx
    obtain ⟨hj, rfl⟩ := List.getElem?_eq_some.1 hy
    rcases Nat.lt_or_gt_of_ne hij with hlt | hgt
    · exact h i j hi hj hlt hxa hya
    · exact fun e => h j i hj hi hgt hya hxa e.symm
  · intro h i j hi hj hlt hxa hya
    exact h i j _ _ (Nat.ne_of_lt hlt) (List.getElem?_eq_getElem hi)
      (List.getElem?_eq_getElem hj) hxa hya

theorem filesInv_init : FilesInv init_system.files := by
  intro f hf
  have e : f = FileEntry.zero := List.eq_of_mem_replicate hf
  subst e
  exact ⟨rfl, fun h => absurd rfl h⟩

theorem up_nodes_nodup (nodes : List Node) : (up_nodes nodes).Nodup :=
  (List.nodup_range MAX_NODES).filter _

theorem create_replicas_inv (nodes : List Node) (f : FileEntry)
    (hlen : f.replicas.length = REPLICA_COUNT) :
    (create_replicas nodes f).1.replicas.length = REPLICA_COUNT ∧
    (active_nodes (create_replicas nodes f).1.replicas).Nodup := by
  rw [create_replicas_eq nodes f hlen]
  refine ⟨?_, ?_⟩
  · simp only [List.length_append, List.length_map, List.length_replicate]
    have : ((up_nodes nodes).take REPLICA_COUNT).length ≤ REPLICA_COUNT := by
      rw [List.length_take]
      exact min_le_left _ _
    omega
  have e : active_nodes (((up_nodes nodes).take REPLICA_COUNT).map placed_on ++
      List.replicate (REPLICA_COUNT - ((up_nodes nodes).take REPLICA_COUNT).length)
        cleared_slot) = ((up_nodes nodes).take REPLICA_COUNT).map (fun n : Nat => (n : Int)) := by
    simp only [active_nodes, List.filter_append, List.map_append]
    have h1 : (List.replicate (REPLICA_COUNT - ((up_nodes nodes).take REPLICA_COUNT).length)
        cleared_slot).filter (fun r => decide (r.is_active ≠ 0)) = [] := by
      rw [List.filter_eq_nil_iff]
      intro r hr
      rw [List.eq_of_mem_replicate hr]
      simp [cleared_slot]
    have h2 : (((up_nodes nodes).take REPLICA_COUNT).map placed_on).filter
        (fun r => decide (r.is_active ≠ 0)) = ((up_nodes nodes).take REPLICA_COUNT).map placed_on := by
      rw [List.filter_eq_self]
      intro r hr
      obtain ⟨n, _, rfl⟩ := List.mem_map.1 hr
      simp [placed_on]
    rw [h1, h2, List.map_nil, List.append_nil, List.map_map]
    rfl
  simp only [e]
  exact ((up_nodes_nodup nodes).sublist (List.take_sublist _ _)).map
    (fun a b h => Int.ofNat.inj h)

theorem getD_zero_length (fs : List FileEntry) (i : Nat)
    (h : ∀ f ∈ fs, f.replicas.length = REPLICA_COUNT) :
    (fs.getD i FileEntry.zero).replicas.length = REPLICA_COUNT := by
  rw [List.getD_eq_getElem?_getD]
  cases hi : fs[i]? with
  | none => rfl
  | some f => exact h f (List.getElem?_mem hi)

theorem filesInv_create (s : State) (name data : List Char) (h : FilesInv s.files) :
    FilesInv (create_file s name data).1.files := by
  unfold create_file
  split_ifs with hdup
  · exact h
  · cases hfree : find_free_slot s.files with
    | none => exact h
    | some index =>
      have hl := getD_zero_length s.files index (fun f hf => (h f hf).1)
      have hc := create_replicas_inv s.nodes
        { s.files.getD index FileEntry.zero with
          name := name.take (MAX_FILENAME - 1), data := data.take (MAX_DATA - 1), in_use := 1 } hl
      simp only
      split_ifs with hzero
      · intro f hf
        rcases List.mem_or_eq_of_mem_set hf with hf | hf
        · exact h f hf
        · subst hf
          exact ⟨hc.1, fun _ => hc.2⟩
      · intro f hf
        rcases List.mem_or_eq_of_mem_set hf with hf | hf
        · exact h f hf
        · subst hf
          exact ⟨hc.1, fun _ => hc.2⟩

theorem filesInv_heal (nodes : List Node) (fs : List FileEntry) (h : FilesInv fs) :
    FilesInv (heal_files nodes fs).1 := by
  rw [heal_files_fst]
  intro f hf
  obtain ⟨g, hg, e⟩ := List.mem_map.1 hf
  subst e
  refine ⟨by rw [(heal_slot_frame nodes g).2.2.2.length_eq]; exact (h g hg).1, ?_⟩
  intro hu
  rw [(heal_slot_frame nodes g).2.2.1] at hu
  unfold heal_slot
  rw [if_neg hu]
  exact heal_file_nodup nodes g ((h g hg).2 hu)

theorem invalidate_active_sublist (id : Int) (rs : List FileReplica) :
    (active_nodes (rs.map (fun r =>
      if r.is_active ≠ 0 ∧ r.node_id = id then { r with is_active := 0 } else r))).Sublist
      (active_nodes rs) := by
  induction rs with
  | nil => exact List.Sublist.refl _
  | cons r rs ih =>
    simp only [active_nodes] at ih ⊢
    by_cases ha : r.is_active = 0
    · simpa [List.filter_cons, ha] using ih
    · by_cases hn : r.node_id = id
      · simp only [List.map_cons, List.filter_cons, ha, hn, ne_eq, not_false_eq_true, and_self,
          if_true, not_true_eq_false, decide_False, decide_True, List.map_cons]
        exact List.Sublist.cons _ ih
      · simp only [List.map_cons, List.filter_cons, ha, hn, ne_eq, not_false_eq_true, and_false,
          if_false, decide_True, if_true, List.map_cons]
        exact List.Sublist.cons₂ _ ih

theorem filesInv_invalidate (id : Int) (fs : List FileEntry) (h : FilesInv fs) :
    FilesInv (fs.map (invalidate_replicas id)) := by
  intro f hf
  obtain ⟨g, hg, e⟩ := List.mem_map.1 hf
  subst e
  unfold invalidate_replicas
  split_ifs with hu
  · exact h g hg
  · refine ⟨by simpa using (h g hg).1, fun _ => ?_⟩
    exact ((h g hg).2 hu).sublist (invalidate_active_sublist id g.replicas)

theorem filesInv_fail (s : State) (id : Int) (h : FilesInv s.files) :
    FilesInv (fail_node s id).1.files := by
  unfold fail_node
  split_ifs
  · exact h
  · exact h
  · exact filesInv_heal _ _ (filesInv_invalidate id s.files h)

theorem filesInv_recover (s : State) (id : Int) (h : FilesInv s.files) :
    FilesInv (recover_node s id).1.files := by
  unfold recover_node
  split_ifs
  · exact h
  · exact h
  · exact filesInv_heal _ _ h

theorem read_file_fst (s : State) (name : List Char) : (read_file s name).1 = s := by
  unfold read_file
  cases find_file_index s.files name <;> rfl

theorem filesInv_reachable (s : State) (h : Reachable s) : FilesInv s.files := by
  induction h with
  | init => exact filesInv_init
  | create name data _ _ _ ih => exact filesInv_create _ name data ih
  | read name _ ih =>
    rw [read_file_fst]
    exact ih
  | fail id _ ih => exact filesInv_fail _ id ih
  | recover id _ ih => exact filesInv_recover _ id ih

/-- C1: in every reachable state a used file has between 0 and `REPLICA_COUNT` active
replica slots, and no two of its active slots hold the same node id. -/
theorem reachable_replicas_bounded_distinct (s : State) (h : Reachable s) :
    ∀ f ∈ s.files, f.in_use ≠ 0 →
      0 ≤ count_active_replicas f ∧ count_active_replicas f ≤ REPLICA_COUNT ∧
      ∀ (i j : Nat) (x y : FileReplica), i ≠ j → f.replicas[i]? = some x →
        f.replicas[j]? = some y → x.is_active ≠ 0 → y.is_active ≠ 0 →
        x.node_id ≠ y.node_id := by
  intro f hf hu
  obtain ⟨hl, hn⟩ := filesInv_reachable s h f hf
  refine ⟨Nat.zero_le _, ?_, (active_nodes_nodup_iff f.replicas).1 (hn hu)⟩
  rw [← hl]
  exact List.countP_le_length _

/-! ## Linear searches -/

theorem first_index_eq_none_iff {α : Type} (p : α → Bool) (l : List α) :
    first_index p l = none ↔ ∀ a ∈ l, p a = false := by
  induction l with
  | nil => simp [first_index]
  | cons a as ih =>
    cases hp : p a with
    | true => simp [first_index, hp]
    | false => simp [first_index, hp, ih]

theorem first_index_eq_some_iff {α : Type} (p : α → Bool) (l : List α) (i : Nat) :
    first_index p l = some i ↔
      ∃ a, l[i]? = some a ∧ p a = true ∧ ∀ j b, j < i → l[j]? = some b → p b = false := by
  induction l generalizing i with
  | nil => simp [first_index]
  | cons a as ih =>
    cases hp : p a with
    | true =>
      simp only [first_index, hp, if_true, Option.some.injEq]
      constructor
      · intro h
        subst h
        exact ⟨a, List.getElem?_cons_zero, hp, fun j b hj => absurd hj (Nat.not_lt_zero j)⟩
      · rintro ⟨b, _, _, hmin⟩
        cases i with
        | zero => rfl
        | succ i =>
          have := hmin 0 a (Nat.succ_pos i) List.getElem?_cons_zero
          rw [hp] at this
          cases this
    | false =>
      simp only [first_index, hp, Bool.false_eq_true, if_false, Option.map_eq_some']
      constructor
      · rintro ⟨k, hk, rfl⟩
        obtain ⟨b, hb, hpb, hmin⟩ := (ih k).1 hk
        refine ⟨b, by simpa using hb, hpb, ?_⟩
        intro j c hj hc
        cases j with
        | zero =>
          simp only [List.getElem?_cons_zero, Option.some.injEq] at hc
          rw [← hc]
          exact hp
        | succ j => exact hmin j c (by omega) (by simpa using hc)
      · rintro ⟨b, hb, hpb, hmin⟩
        cases i with
        | zero =>
          simp only [List.getElem?_cons_zero, Option.some.injEq] at hb
          rw [← hb, hp] at hpb
          cases hpb
        | succ i =>
          refine ⟨i, (ih i).2 ⟨b, by simpa using hb, hpb, ?_⟩, rfl⟩
          intro j c hj hc
          exact hmin (j + 1) c (by omega) (by simpa using hc)

theorem find_file_index_eq_first (fs : List FileEntry) (name : List Char) :
    find_file_index fs name = first_index (fun f => decide (f.in_use ≠ 0 ∧ f.name = name)) fs := by
  induction fs with
  | nil => rfl
  | cons f fs ih =>
    by_cases h : f.in_use ≠ 0 ∧ f.name = name
    · simp [find_file_index, first_index, h]
    · simp only [find_file_index, first_index, h, if_false, ih, decide_False,
        Bool.false_eq_true]

theorem find_free_slot_eq_first (fs : List FileEntry) :
    find_free_slot fs = first_index (fun f => decide (f.in_use = 0)) fs := by
  induction fs with
  | nil => rfl
  | cons f fs ih =>
    by_cases h : f.in_use = 0
    · simp [find_free_slot, first_index, h]
    · simp only [find_free_slot, first_index, h, if_false, ih, decide_False,
        Bool.false_eq_true]

theorem find_file_index_eq_none_iff (fs : List FileEntry) (name : List Char) :
    find_file_index fs name = none ↔ ¬ ∃ f ∈ fs, f.in_use ≠ 0 ∧ f.name = name := by
  rw [find_file_index_eq_first, first_index_eq_none_iff]
  simp only [decide_eq_false_iff_not, not_exists, not_and]

theorem find_file_index_eq_some_iff (fs : List FileEntry) (name : List Char) (i : Nat) :
    find_file_index fs name = some i ↔
      ∃ f, fs[i]? = some f ∧ (f.in_use ≠ 0 ∧ f.name = name) ∧
        ∀ j g, j < i → fs[j]? = some g → ¬ (g.in_use ≠ 0 ∧ g.name = name) := by
  rw [find_file_index_eq_first, first_index_eq_some_iff]
  simp only [decide_eq_true_eq, decide_eq_false_iff_not]

theorem find_free_slot_eq_none_iff (fs : List FileEntry) :
    find_free_slot fs = none ↔ ∀ f ∈ fs, f.in_use ≠ 0 := by
  rw [find_free_slot_eq_first, first_index_eq_none_iff]
  simp only [decide_eq_false_iff_not, ne_eq]

theorem find_free_slot_eq_some_iff (fs : List FileEntry) (i : Nat) :
    find_free_slot fs = some i ↔
      ∃ f, fs[i]? = some f ∧ f.in_use = 0 ∧
        ∀ j g, j < i → fs[j]? = some g → g.in_use ≠ 0 := by
  rw [find_free_slot_eq_first, first_index_eq_some_iff]
  simp only [decide_eq_true_eq, decide_eq_false_iff_not, ne_eq]

/-! ## The read path -/

theorem read_scan_cons_live (nodes : List Node) (f : FileEntry) (r : FileReplica)
    (rs : List FileReplica) (h : slot_live nodes r) :
    read_scan nodes f (r :: rs) = ReadResult.Served r.node_id f.name f.data := by
  obtain ⟨ha, hc⟩ := h
  have hc2 : 0 ≤ r.node_id ∧ r.node_id < (MAX_NODES : Int) ∧
      node_is_up nodes r.node_id.toNat = true := hc
  simp only [read_scan, ha, if_false, hc2, and_self, if_true]

theorem read_scan_cons_dead (nodes : List Node) (f : FileEntry) (r : FileReplica)
    (rs : List FileReplica) (h : ¬ slot_live nodes r) :
    read_scan nodes f (r :: rs) = read_scan nodes f rs := by
  by_cases ha : r.is_active = 0
  · simp [read_scan, ha]
  · have hc : ¬ (0 ≤ r.node_id ∧ r.node_id < (MAX_NODES : Int) ∧
        node_is_up nodes r.node_id.toNat = true) := fun hc => h ⟨ha, hc⟩
    simp only [read_scan, ha, if_false, hc]

theorem read_scan_ne_notFound (nodes : List Node) (f : FileEntry) (rs : List FileReplica) :
    read_scan nodes f rs ≠ ReadResult.NotFound := by
  induction rs with
  | nil => simp [read_scan]
  | cons r rs ih =>
    by_cases h : slot_live nodes r
    · rw [read_scan_cons_live nodes f r rs h]
      simp
    · rw [read_scan_cons_dead nodes f r rs h]
      exact ih

theorem read_scan_unavailable_iff (nodes : List Node) (f : FileEntry)
    (rs : List FileReplica) :
    read_scan nodes f rs = ReadResult.Unavailable ↔ ∀ r ∈ rs, ¬ slot_live nodes r := by
  induction rs with
  | nil => simp [read_scan]
  | cons r rs ih =>
    by_cases h : slot_live nodes r
    · rw [read_scan_cons_live nodes f r rs h]
      constructor
      · intro e
        cases e
      · intro hall
        exact absurd h (hall r (List.mem_cons_self _ _))
    · rw [read_scan_cons_dead nodes f r rs h, ih]
      simp only [List.mem_cons, forall_eq_or_imp, h, not_false_eq_true, true_and]

theorem read_scan_first_live (nodes : List Node) (f : FileEntry) (rs : List FileReplica)
    (i : Nat) (r : FileReplica) (hr : rs[i]? = some r) (hl : slot_live nodes r)
    (hmin : ∀ j x, j < i → rs[j]? = some x → ¬ slot_live nodes x) :
    read_scan nodes f rs = ReadResult.Served r.node_id f.name f.data := by
  induction rs generalizing i with
  | nil => simp at hr
  | cons a rs ih =>
    cases i with
    | zero =>
      simp only [List.getElem?_cons_zero, Option.some.injEq] at hr
      subst hr
      exact read_scan_cons_live nodes f a rs hl
    | succ i =>
      rw [read_scan_cons_dead nodes f a rs (hmin 0 a (Nat.succ_pos i) List.getElem?_cons_zero)]
      refine ih i (by simpa using hr) ?_
      intro j x hj hx
      exact hmin (j + 1) x (by omega) (by simpa using hx)

/-- C6: `read_file` leaves the state as it is; it reports `NotFound` exactly when no used
file has the name; otherwise, for the first used file with the name, it reports
`Unavailable` exactly when no slot is active on an up node, and else it serves the stored
data from the node of the lowest-indexed slot that is active on an up node. -/
theorem read_file_spec (s : State) (name : List Char) :
    (read_file s name).1 = s ∧
    ((read_file s name).2 = ReadResult.NotFound ↔
      ¬ ∃ f ∈ s.files, f.in_use ≠ 0 ∧ f.name = name) ∧
    ∀ (idx : Nat) (f : FileEntry), s.files[idx]? = some f →
      (f.in_use ≠ 0 ∧ f.name = name) →
      (∀ j g, j < idx → s.files[j]? = some g → ¬ (g.in_use ≠ 0 ∧ g.name = name)) →
      ((read_file s name).2 = ReadResult.Unavailable ↔
        ∀ r ∈ f.replicas, ¬ slot_live s.nodes r) ∧
      ∀ (i : Nat) (r : FileReplica), f.replicas[i]? = some r → slot_live s.nodes r →
        (∀ j x, j < i → f.replicas[j]? = some x → ¬ slot_live s.nodes x) →
        (read_file s name).2 = ReadResult.Served r.node_id name f.data := by
  refine ⟨read_file_fst s name, ?_, ?_⟩
  · rw [← find_file_index_eq_none_iff]
    unfold read_file
    cases h : find_file_index s.files name with
    | none => simp
    | some idx =>
      constructor
      · intro e
        exact absurd e (read_scan_ne_notFound _ _ _)
      · intro e
        cases e
  · intro idx f hf hmatch hmin
    have hidx : find_file_index s.files name = some idx :=
      (find_file_index_eq_some_iff s.files name idx).2 ⟨f, hf, hmatch, hmin⟩
    have hget : s.files.getD idx FileEntry.zero = f := by
      rw [List.getD_eq_getElem?_getD, hf]
      rfl
    have hread : (read_file s name).2 = read_scan s.nodes f f.replicas := by
      unfold read_file
      rw [hidx]
      simp only [hget]
    rw [hread]
    refine ⟨read_scan_unavailable_iff _ _ _, ?_⟩
    intro i r hr hl hm
    rw [read_scan_first_live s.nodes f f.replicas i r hr hl hm, hmatch.2]

/-! ## File creation -/

theorem read_file_snd_eq (s : State) (name : List Char) (idx : Nat) (f : FileEntry)
    (hidx : find_file_index s.files name = some idx) (hf : s.files[idx]? = some f) :
    (read_file s name).2 = read_scan s.nodes f f.replicas := by
  have hget : s.files.getD idx FileEntry.zero = f := by
    rw [List.getD_eq_getElem?_getD, hf]
    rfl
  unfold read_file
  rw [hidx]
  simp only [hget]

theorem read_file_notFound (s : State) (name : List Char)
    (h : find_file_index s.files name = none) :
    (read_file s name).2 = ReadResult.NotFound := by
  unfold read_file
  rw [h]

theorem create_file_duplicate (s : State) (name data : List Char)
    (h : find_file_index s.files name ≠ none) :
    create_file s name data = (s, CreateResult.DuplicateName) := by
  unfold create_file
  rw [if_pos h]

theorem create_file_full (s : State) (name data : List Char)
    (h : find_file_index s.files name = none) (hfull : find_free_slot s.files = none) :
    create_file s name data = (s, CreateResult.CatalogFull) := by
  unfold create_file
  rw [if_neg (by simp [h]), hfull]

theorem create_file_placed (s : State) (name data : List Char) (index : Nat)
    (hlen : ∀ f ∈ s.files, f.replicas.length = REPLICA_COUNT)
    (h : find_file_index s.files name = none) (hfree : find_free_slot s.files = some index) :
    create_file s name data =
      if ((up_nodes s.nodes).take REPLICA_COUNT).length = 0 then
        ({ s with files := s.files.set index { new_file s.nodes name data with in_use := 0 } },
          CreateResult.NoHealthyNodes)
      else
        ({ s with files := s.files.set index (new_file s.nodes name data) },
          CreateResult.Stored ((up_nodes s.nodes).take REPLICA_COUNT).length) := by
  have hl := getD_zero_length s.files index hlen
  unfold create_file
  rw [if_neg (by simp [h]), hfree]
  simp only
  have hc := create_replicas_eq s.nodes
    { name := List.take (MAX_FILENAME - 1) name, data := List.take (MAX_DATA - 1) data,
      replicas := (s.files.getD index FileEntry.zero).replicas, in_use := 1 } hl
  rw [hc]
  rfl

theorem new_file_count (nodes : List Node) (name data : List Char) :
    count_active_replicas (new_file nodes name data) =
      ((up_nodes nodes).take REPLICA_COUNT).length := by
  simp only [count_active_replicas, new_file, List.countP_append]
  have h1 : (((up_nodes nodes).take REPLICA_COUNT).map placed_on).countP
      (fun r => decide (r.is_active ≠ 0)) = ((up_nodes nodes).take REPLICA_COUNT).length := by
    rw [List.countP_eq_length.2, List.length_map]
    intro r hr
    obtain ⟨n, _, rfl⟩ := List.mem_map.1 hr
    simp [placed_on]
  have h2 : (List.replicate (REPLICA_COUNT - ((up_nodes nodes).take REPLICA_COUNT).length)
      cleared_slot).countP (fun r => decide (r.is_active ≠ 0)) = 0 := by
    rw [List.countP_eq_zero]
    intro r hr
    rw [List.eq_of_mem_replicate hr]
    simp [cleared_slot]
  rw [h1, h2, Nat.add_zero]

theorem up_nodes_mem (nodes : List Node) (u : Nat) (h : u ∈ up_nodes nodes) :
    u < MAX_NODES ∧ node_is_up nodes u = true := by
  unfold up_nodes at h
  rw [List.mem_filter, List.mem_range] at h
  exact h

theorem placed_on_live (nodes : List Node) (u : Nat) (h : u ∈ up_nodes nodes) :
    slot_live nodes (placed_on u) := by
  obtain ⟨h1, h2⟩ := up_nodes_mem nodes u h
  refine ⟨by simp [placed_on], Int.ofNat_nonneg u, ?_, ?_⟩
  · show (u : Int) < (MAX_NODES : Int)
    exact_mod_cast h1
  · show node_is_up nodes (Int.toNat (u : Int)) = true
    rw [Int.toNat_ofNat]
    exact h2

/-- All that `read_file` finds right after a successful `create_file`: the new file is
the one found under its name, and its first slot, on the lowest up node, serves the read. -/
theorem create_file_then_read (s : State) (name data : List Char) (k : Nat)
    (hlen : ∀ f ∈ s.files, f.replicas.length = REPLICA_COUNT)
    (hn : name.length < MAX_FILENAME) (hd : data.length < MAX_DATA)
    (hc : (create_file s name data).2 = CreateResult.Stored k) :
    ∃ index u, (create_file s name data).1.nodes = s.nodes ∧
      find_free_slot s.files = some index ∧
      find_file_index (create_file s name data).1.files name = some index ∧
      (create_file s name data).1.files[index]? = some (new_file s.nodes name data) ∧
      (new_file s.nodes name data).name = name ∧ (new_file s.nodes name data).data = data ∧
      count_active_replicas (new_file s.nodes name data) = k ∧ 0 < k ∧
      (new_file s.nodes name data).replicas[0]? = some (placed_on u) ∧
      slot_live s.nodes (placed_on u) ∧
      (read_file (create_file s name data).1 name).2 = ReadResult.Served (u : Int) name data := by
  have hnone : find_file_index s.files name = none := by
    by_contra h
    rw [create_file_duplicate s name data h] at hc
    cases hc
  cases hfree : find_free_slot s.files with
  | none =>
    rw [create_file_full s name data hnone hfree] at hc
    cases hc
  | some index =>
    have hcf := create_file_placed s name data index hlen hnone hfree
    by_cases hz : ((up_nodes s.nodes).take REPLICA_COUNT).length = 0
    · rw [hcf, if_pos hz] at hc
      cases hc
    · rw [if_neg hz] at hcf
      rw [hcf] at hc ⊢
      simp only [CreateResult.Stored.injEq] at hc
      obtain ⟨f0, hf0, _, _⟩ := (find_free_slot_eq_some_iff _ _).1 hfree
      have hidxlt : index < s.files.length := (List.getElem?_eq_some.1 hf0).1
      have hget : (s.files.set index (new_file s.nodes name data))[index]? =
          some (new_file s.nodes name data) := by
        rw [List.getElem?_set, if_pos rfl, if_pos hidxlt]
      have hname : (new_file s.nodes name data).name = name :=
        List.take_of_length_le (by omega)
      have hdata : (new_file s.nodes name data).data = data :=
        List.take_of_length_le (by omega)
      have hidx : find_file_index (s.files.set index (new_file s.nodes name data)) name =
          some index := by
        refine (find_file_index_eq_some_iff _ _ _).2
          ⟨_, hget, ⟨by simp [new_file], hname⟩, ?_⟩
        intro j g hj hg hmatch
        rw [List.getElem?_set, if_neg (by omega)] at hg
        exact (find_file_index_eq_none_iff _ _).1 hnone ⟨g, List.getElem?_mem hg, hmatch⟩
      cases hup : up_nodes s.nodes with
      | nil => simp [hup] at hz
      | cons u us =>
        have hmem : u ∈ up_nodes s.nodes := by
          rw [hup]
          exact List.mem_cons_self _ _
        have hrep : (new_file s.nodes name data).replicas =
            placed_on u :: ((us.take 2).map placed_on ++
              List.replicate (REPLICA_COUNT - ((u :: us).take REPLICA_COUNT).length)
                cleared_slot) := by
          simp [new_file, hup]
        have hlive := placed_on_live s.nodes u hmem
        refine ⟨index, u, rfl, rfl, hidx, hget, hname, hdata, ?_, ?_, ?_, hlive, ?_⟩
        · rw [new_file_count]
          exact hc
        · omega
        · rw [hrep]
          exact List.getElem?_cons_zero
        · have hr := read_file_snd_eq
            { s with files := s.files.set index (new_file s.nodes name data) } name index
            (new_file s.nodes name data) hidx hget
          rw [hr, hrep, read_scan_cons_live _ _ _ _ hlive, hname, hdata]
          rfl

theorem create_replicas_scan_all_down (nodes : List Node) (todo n : Nat)
    (rs : List FileReplica) (c : Nat)
    (h : ∀ m, n ≤ m → m < n + todo → node_is_up nodes m = false) :
    create_replicas_scan nodes todo n rs c = (rs, c) := by
  induction todo generalizing n with
  | zero => rfl
  | succ todo ih =>
    have hn : node_is_up nodes n = false := h n (le_refl n) (by omega)
    have ih2 := ih (n + 1) (fun m h1 h2 => h m (by omega) (by omega))
    simp only [create_replicas_scan, hn, Bool.false_eq_true, if_false, ih2, ite_self]

theorem create_replicas_all_down (nodes : List Node) (f : FileEntry)
    (h : ∀ n, n < MAX_NODES → node_is_up nodes n = false) :
    (create_replicas nodes f).2 = 0 := by
  unfold create_replicas
  simp only
  rw [create_replicas_scan_all_down nodes MAX_NODES 0 _ 0 (fun m _ h2 => h m (by omega))]

/-! ## File creation and reading: the claims -/

/-- C7: right after `create_file` has stored a file with `k` replicas, under a name and data
that fit the buffers, `read_file` on that name succeeds exactly when one of the first `k`
slots of the new file is on an up node, and a successful read returns the data given to
`create_file`. -/
theorem read_after_create (s : State) (name data : List Char) (k : Nat)
    (hlen : ∀ f ∈ s.files, f.replicas.length = REPLICA_COUNT)
    (hn : name.length < MAX_FILENAME) (hd : data.length < MAX_DATA)
    (hc : (create_file s name data).2 = CreateResult.Stored k) :
    ∃ idx f, find_file_index (create_file s name data).1.files name = some idx ∧
      (create_file s name data).1.files[idx]? = some f ∧
      count_active_replicas f = k ∧
      ((∃ n nm d, (read_file (create_file s name data).1 name).2 = ReadResult.Served n nm d) ↔
        ∃ i r, i < k ∧ f.replicas[i]? = some r ∧
          node_id_up (create_file s name data).1.nodes r.node_id) ∧
      ∀ n nm d, (read_file (create_file s name data).1 name).2 = ReadResult.Served n nm d →
        nm = name ∧ d = data := by
  obtain ⟨index, u, hnodes, _, hidx, hget, _, _, hcount, hk, h0, hlive, hread⟩ :=
    create_file_then_read s name data k hlen hn hd hc
  refine ⟨index, new_file s.nodes name data, hidx, hget, hcount, ?_, ?_⟩
  · constructor
    · intro _
      refine ⟨0, placed_on u, hk, h0, ?_⟩
      rw [hnodes]
      exact hlive.2
    · intro _
      exact ⟨_, _, _, hread⟩
  · intro n nm d h
    rw [hread] at h
    simp only [ReadResult.Served.injEq] at h
    exact ⟨h.2.1.symm, h.2.2.symm⟩

/-- C8: when a used file already has the name, `create_file` reports `DuplicateName` and
returns the state it was given, nodes and files untouched. -/
theorem create_file_duplicate_name (s : State) (name data : List Char)
    (h : ∃ f ∈ s.files, f.in_use ≠ 0 ∧ f.name = name) :
    create_file s name data = (s, CreateResult.DuplicateName) := by
  apply create_file_duplicate
  intro hnone
  exact (find_file_index_eq_none_iff s.files name).1 hnone h

/-- C10: when every file slot is used and no used file has the name, `create_file` reports
`CatalogFull` and returns the state it was given, nodes and files untouched. -/
theorem create_file_catalog_full (s : State) (name data : List Char)
    (hfull : ∀ f ∈ s.files, f.in_use ≠ 0)
    (hnew : ¬ ∃ f ∈ s.files, f.in_use ≠ 0 ∧ f.name = name) :
    create_file s name data = (s, CreateResult.CatalogFull) :=
  create_file_full s name data ((find_file_index_eq_none_iff s.files name).2 hnew)
    ((find_free_slot_eq_none_iff s.files).2 hfull)

/-- C9, as amended: when every node is down, no used file has the name and some file slot
is free, `create_file` reports `NoHealthyNodes`; afterwards the name is not found by
`find_file_index` nor by `read_file`, the nodes are as before, and the used files are the
same, slot by slot, as before. -/
theorem create_file_no_healthy_nodes (s : State) (name data : List Char)
    (hdown : ∀ n, n < MAX_NODES → node_is_up s.nodes n = false)
    (hnew : ¬ ∃ f ∈ s.files, f.in_use ≠ 0 ∧ f.name = name)
    (hfree : ∃ f ∈ s.files, f.in_use = 0) :
    (create_file s name data).2 = CreateResult.NoHealthyNodes ∧
    find_file_index (create_file s name data).1.files name = none ∧
    (read_file (create_file s name data).1 name).2 = ReadResult.NotFound ∧
    (create_file s name data).1.nodes = s.nodes ∧
    (create_file s name data).1.files.length = s.files.length ∧
    ∀ (i : Nat) (f : FileEntry), f.in_use ≠ 0 →
      ((create_file s name data).1.files[i]? = some f ↔ s.files[i]? = some f) := by
  have hnone : find_file_index s.files name = none :=
    (find_file_index_eq_none_iff s.files name).2 hnew
  obtain ⟨index, hidx⟩ : ∃ index, find_free_slot s.files = some index := by
    cases h : find_free_slot s.files with
    | none =>
      obtain ⟨f, hf, hu⟩ := hfree
      exact absurd hu ((find_free_slot_eq_none_iff s.files).1 h f hf)
    | some index => exact ⟨index, rfl⟩
  obtain ⟨f0, hf0, hu0, _⟩ := (find_free_slot_eq_some_iff _ _).1 hidx
  have hidxlt : index < s.files.length := (List.getElem?_eq_some.1 hf0).1
  obtain ⟨g, hg0, hcf⟩ : ∃ g : FileEntry, g.in_use = 0 ∧ create_file s name data =
      ({ s with files := s.files.set index g }, CreateResult.NoHealthyNodes) := by
    refine ⟨{ (create_replicas s.nodes
      { s.files.getD index FileEntry.zero with
        name := name.take (MAX_FILENAME - 1), data := data.take (MAX_DATA - 1),
        in_use := 1 }).1 with in_use := 0 }, rfl, ?_⟩
    unfold create_file
    rw [if_neg (by simp [hnone]), hidx]
    simp only
    rw [if_pos (create_replicas_all_down s.nodes _ hdown)]
  rw [hcf]
  have hfind : find_file_index (s.files.set index g) name = none := by
    rw [find_file_index_eq_none_iff]
    rintro ⟨f, hf, hu, hname⟩
    rcases List.mem_or_eq_of_mem_set hf with hf | hf
    · exact hnew ⟨f, hf, hu, hname⟩
    · rw [hf] at hu
      exact hu hg0
  refine ⟨rfl, hfind, read_file_notFound _ name hfind, rfl, List.length_set _ _ _, ?_⟩
  intro i f hu
  simp only
  by_cases hi : index = i
  · subst hi
    rw [List.getElem?_set, if_pos rfl, if_pos hidxlt, hf0]
    constructor
    · intro e
      simp only [Option.some.injEq] at e
      rw [← e] at hu
      exact absurd hg0 hu
    · intro e
      simp only [Option.some.injEq] at e
      rw [← e] at hu
      exact absurd hu0 hu
  · rw [List.getElem?_set, if_neg hi]

/-! ## The example states are reachable -/

theorem reachable_create_numbered (k : Nat) (s : State) (h : Reachable s) :
    Reachable (create_numbered k s) := by
  induction k with
  | zero => exact h
  | succ k ih =>
    exact Reachable.create (numbered_name k) ['x'] ih (by decide : 3 < MAX_FILENAME) (by decide)

theorem reachable_fail_all (s : State) (h : Reachable s) : Reachable (fail_all s) :=
  Reachable.fail 3 (Reachable.fail 2 (Reachable.fail 1 (Reachable.fail 0 h)))

set_option maxRecDepth 1000000 in
set_option maxHeartbeats 4000000 in
theorem fail_all_create_numbered :
    fail_all (create_numbered MAX_FILES init_system) = full_down_state := by decide

theorem full_down_state_reachable : Reachable full_down_state := by
  rw [← fail_all_create_numbered]
  exact reachable_fail_all _ (reachable_create_numbered _ _ Reachable.init)

theorem scenario_a_state_reachable : Reachable scenario_a_state :=
  Reachable.fail 2 (Reachable.create ['a'] ['x'] Reachable.init (by decide) (by decide))

theorem all_down_state_reachable : Reachable all_down_state :=
  reachable_fail_all _ (Reachable.create ['a'] ['x'] Reachable.init (by decide) (by decide))

/-! ## Placement on the two example registries of the specification -/

set_option maxRecDepth 100000 in
/-- With only node 0 up `create_replicas` returns 1 and places on node 0 alone. -/
theorem create_replicas_only_node_0 :
    create_replicas [{ id := 0, is_up := 1 }, { id := 1, is_up := 0 }, { id := 2, is_up := 0 },
        { id := 3, is_up := 0 }] degraded_file =
      ({ degraded_file with replicas := [{ node_id := 0, is_active := 1 },
          { node_id := -1, is_active := 0 }, { node_id := -1, is_active := 0 }] }, 1) := by
  decide

set_option maxRecDepth 100000 in
/-- With all four nodes up `create_replicas` returns 3 and places on nodes 0, 1, 2. -/
theorem create_replicas_all_up :
    create_replicas init_system.nodes degraded_file =
      ({ degraded_file with replicas := [{ node_id := 0, is_active := 1 },
          { node_id := 1, is_active := 1 }, { node_id := 2, is_active := 1 }] }, 3) := by
  decide

set_option maxRecDepth 100000 in
/-- Healing `degraded_state` puts the lost replica of file `a` on node 3. -/
theorem heal_degraded_state :
    (heal_replication degraded_state).2 = [{ name := ['a'], node := 3 }] ∧
    (heal_replication degraded_state).1.files.head? =
      some { degraded_file with replicas := [{ node_id := 0, is_active := 1 },
        { node_id := 1, is_active := 1 }, { node_id := 3, is_active := 1 }] } := by
  decide

/-! ## The claims at concrete states -/

/-- C1 at `scenario_a_state`. -/
theorem reachable_replicas_bounded_distinct_witness :
    Reachable scenario_a_state ∧
    ∀ f ∈ scenario_a_state.files, f.in_use ≠ 0 →
      0 ≤ count_active_replicas f ∧ count_active_replicas f ≤ REPLICA_COUNT ∧
      ∀ (i j : Nat) (x y : FileReplica), i ≠ j → f.replicas[i]? = some x →
        f.replicas[j]? = some y → x.is_active ≠ 0 → y.is_active ≠ 0 →
        x.node_id ≠ y.node_id :=
  ⟨scenario_a_state_reachable,
    reachable_replicas_bounded_distinct scenario_a_state scenario_a_state_reachable⟩

set_option maxRecDepth 100000 in
/-- C6 at `degraded_state`: file `a` is found in slot 0 and its slot 0, on the up node 0,
serves the read. -/
theorem read_file_spec_witness :
    (read_file degraded_state ['a']).2 = ReadResult.Served 0 ['a'] ['x'] :=
  ((read_file_spec degraded_state ['a']).2.2 0 degraded_file rfl (by decide)
    (fun j _ hj _ => absurd hj (Nat.not_lt_zero j))).2 0 { node_id := 0, is_active := 1 } rfl
    (by decide) (fun j _ hj _ => absurd hj (Nat.not_lt_zero j))

set_option maxRecDepth 100000 in
/-- C7 at `init_system`: file `a` stored with 3 replicas. -/
theorem read_after_create_witness :
    (∀ f ∈ init_system.files, f.replicas.length = REPLICA_COUNT) ∧
    ['a'].length < MAX_FILENAME ∧ ['x'].length < MAX_DATA ∧
    (create_file init_system ['a'] ['x']).2 = CreateResult.Stored 3 ∧
    ∃ idx f, find_file_index (create_file init_system ['a'] ['x']).1.files ['a'] = some idx ∧
      (create_file init_system ['a'] ['x']).1.files[idx]? = some f ∧
      count_active_replicas f = 3 ∧
      ((∃ n nm d, (read_file (create_file init_system ['a'] ['x']).1 ['a']).2 =
          ReadResult.Served n nm d) ↔
        ∃ i r, i < 3 ∧ f.replicas[i]? = some r ∧
          node_id_up (create_file init_system ['a'] ['x']).1.nodes r.node_id) ∧
      ∀ n nm d, (read_file (create_file init_system ['a'] ['x']).1 ['a']).2 =
          ReadResult.Served n nm d → nm = ['a'] ∧ d = ['x'] :=
  ⟨by decide, by decide, by decide, by decide,
    read_after_create init_system ['a'] ['x'] 3 (by decide) (by decide) (by decide)
      (by decide)⟩

set_option maxRecDepth 100000 in
/-- C8 at `degraded_state`, which holds a file `a`. -/
theorem create_file_duplicate_name_witness :
    (∃ f ∈ degraded_state.files, f.in_use ≠ 0 ∧ f.name = ['a']) ∧
    create_file degraded_state ['a'] ['y'] = (degraded_state, CreateResult.DuplicateName) :=
  ⟨by decide, create_file_duplicate_name degraded_state ['a'] ['y'] (by decide)⟩

set_option maxRecDepth 1000000 in
/-- C9 fails as stated: `full_down_state` is reachable, all its nodes are down and no file
is named `new`, yet `create_file` reports `CatalogFull`, not `NoHealthyNodes`. -/
theorem create_file_all_down_catalog_full :
    Reachable full_down_state ∧
    (∀ n, n < MAX_NODES → node_is_up full_down_state.nodes n = false) ∧
    (¬ ∃ f ∈ full_down_state.files, f.in_use ≠ 0 ∧ f.name = ['n', 'e', 'w']) ∧
    (create_file full_down_state ['n', 'e', 'w'] ['y']).2 = CreateResult.CatalogFull ∧
    (create_file full_down_state ['n', 'e', 'w'] ['y']).2 ≠ CreateResult.NoHealthyNodes :=
  ⟨full_down_state_reachable, by decide, by decide, by decide, by decide⟩

set_option maxRecDepth 100000 in
/-- C9, as amended, at `all_down_state` with the new name `b`. -/
theorem create_file_no_healthy_nodes_witness :
    (∀ n, n < MAX_NODES → node_is_up all_down_state.nodes n = false) ∧
    (¬ ∃ f ∈ all_down_state.files, f.in_use ≠ 0 ∧ f.name = ['b']) ∧
    (∃ f ∈ all_down_state.files, f.in_use = 0) ∧
    ((create_file all_down_state ['b'] ['y']).2 = CreateResult.NoHealthyNodes ∧
      find_file_index (create_file all_down_state ['b'] ['y']).1.files ['b'] = none ∧
      (read_file (create_file all_down_state ['b'] ['y']).1 ['b']).2 = ReadResult.NotFound ∧
      (create_file all_down_state ['b'] ['y']).1.nodes = all_down_state.nodes ∧
      (create_file all_down_state ['b'] ['y']).1.files.length = all_down_state.files.length ∧
      ∀ (i : Nat) (f : FileEntry), f.in_use ≠ 0 →
        ((create_file all_down_state ['b'] ['y']).1.files[i]? = some f ↔
          all_down_state.files[i]? = some f)) :=
  ⟨by decide, by decide, by decide,
    create_file_no_healthy_nodes all_down_state ['b'] ['y'] (by decide) (by decide)
      (by decide)⟩

set_option maxRecDepth 1000000 in
/-- C10 at `full_down_state` with the new name `new`. -/
theorem create_file_catalog_full_witness :
    (∀ f ∈ full_down_state.files, f.in_use ≠ 0) ∧
    (¬ ∃ f ∈ full_down_state.files, f.in_use ≠ 0 ∧ f.name = ['n', 'e', 'w']) ∧
    full_down_state.files.length = MAX_FILES ∧
    create_file full_down_state ['n', 'e', 'w'] ['y'] =
      (full_down_state, CreateResult.CatalogFull) :=
  ⟨by decide, by decide, by decide,
    create_file_catalog_full full_down_state ['n', 'e', 'w'] ['y'] (by decide) (by decide)⟩

/-! ## Rejected node transitions -/

/-- C11: rejected node transitions change nothing. With an id outside `0..MAX_NODES-1` both
`fail_node` and `recover_node` report `InvalidNode`; `fail_node` on a node that is down
reports `AlreadyDown`; `recover_node` on a node that is up reports `AlreadyUp`; each time the
state is returned as it was and no healing line is printed. -/
theorem rejected_node_transitions (s : State) (id : Int) :
    ((id < 0 ∨ (MAX_NODES : Int) ≤ id) →
      fail_node s id = (s, NodeResult.InvalidNode, []) ∧
      recover_node s id = (s, NodeResult.InvalidNode, [])) ∧
    (0 ≤ id → id < (MAX_NODES : Int) → node_is_up s.nodes id.toNat = false →
      fail_node s id = (s, NodeResult.AlreadyDown, [])) ∧
    (0 ≤ id → id < (MAX_NODES : Int) → node_is_up s.nodes id.toNat = true →
      recover_node s id = (s, NodeResult.AlreadyUp, [])) := by
  refine ⟨?_, ?_, ?_⟩
  · intro h
    have h2 : id < 0 ∨ id ≥ (MAX_NODES : Int) := h
    exact ⟨by unfold fail_node; rw [if_pos h2], by unfold recover_node; rw [if_pos h2]⟩
  · intro h0 h1 hd
    have h2 : ¬ (id < 0 ∨ id ≥ (MAX_NODES : Int)) := by
      intro h
      rcases h with h | h
      · exact absurd h0 (not_le.2 h)
      · exact absurd h1 (not_lt.2 h)
    unfold fail_node
    rw [if_neg h2, if_pos (by simp [hd])]
  · intro h0 h1 hu
    have h2 : ¬ (id < 0 ∨ id ≥ (MAX_NODES : Int)) := by
      intro h
      rcases h with h | h
      · exact absurd h0 (not_le.2 h)
      · exact absurd h1 (not_lt.2 h)
    unfold recover_node
    rw [if_neg h2, if_pos hu]

set_option maxRecDepth 100000 in
/-- C11 at `degraded_state`: node 5 does not exist, node 2 is down and node 0 is up. -/
theorem rejected_node_transitions_witness :
    fail_node degraded_state 5 = (degraded_state, NodeResult.InvalidNode, []) ∧
    recover_node degraded_state (-1) = (degraded_state, NodeResult.InvalidNode, []) ∧
    fail_node degraded_state 2 = (degraded_state, NodeResult.AlreadyDown, []) ∧
    recover_node degraded_state 0 = (degraded_state, NodeResult.AlreadyUp, []) :=
  ⟨((rejected_node_transitions degraded_state 5).1 (Or.inr (by decide))).1,
    ((rejected_node_transitions degraded_state (-1)).1 (Or.inl (by decide))).2,
    (rejected_node_transitions degraded_state 2).2.1 (by decide) (by decide) (by decide),
    (rejected_node_transitions degraded_state 0).2.2 (by decide) (by decide) (by decide)⟩

/-! ## The frame of a successful `create_file` -/

theorem create_replicas_frame (nodes : List Node) (f : FileEntry) :
    (create_replicas nodes f).1.name = f.name ∧ (create_replicas nodes f).1.data = f.data ∧
    (create_replicas nodes f).1.in_use = f.in_use := ⟨rfl, rfl, rfl⟩

/-- C16: a successful `create_file` leaves the node registry and every other file slot as
they were (it prints no healing line and heals no degraded file); the new file, with the
given name and data and marked used, sits in the lowest-indexed slot that was unused. -/
theorem create_file_touches_only_new_slot (s : State) (name data : List Char) (k : Nat)
    (hc : (create_file s name data).2 = CreateResult.Stored k) :
    (create_file s name data).1.nodes = s.nodes ∧
    (create_file s name data).1.files.length = s.files.length ∧
    ∃ (index : Nat) (f0 : FileEntry), s.files[index]? = some f0 ∧ f0.in_use = 0 ∧
      (∀ j g, j < index → s.files[j]? = some g → g.in_use ≠ 0) ∧
      (∀ j, j ≠ index → (create_file s name data).1.files[j]? = s.files[j]?) ∧
      ∃ f, (create_file s name data).1.files[index]? = some f ∧ f.in_use = 1 ∧
        f.name = name.take (MAX_FILENAME - 1) ∧ f.data = data.take (MAX_DATA - 1) := by
  have hnone : find_file_index s.files name = none := by
    by_contra h
    rw [create_file_duplicate s name data h] at hc
    cases hc
  cases hfree : find_free_slot s.files with
  | none =>
    rw [create_file_full s name data hnone hfree] at hc
    cases hc
  | some index =>
    obtain ⟨f0, hf0, hu0, hmin⟩ := (find_free_slot_eq_some_iff _ _).1 hfree
    have hidxlt : index < s.files.length := (List.getElem?_eq_some.1 hf0).1
    have hcf : create_file s name data =
        if (create_replicas s.nodes { s.files.getD index FileEntry.zero with
            name := name.take (MAX_FILENAME - 1), data := data.take (MAX_DATA - 1),
            in_use := 1 }).2 = 0 then
          ({ s with files := s.files.set index { (create_replicas s.nodes
            { s.files.getD index FileEntry.zero with
              name := name.take (MAX_FILENAME - 1), data := data.take (MAX_DATA - 1),
              in_use := 1 }).1 with in_use := 0 } }, CreateResult.NoHealthyNodes)
        else
          ({ s with files := s.files.set index (create_replicas s.nodes
            { s.files.getD index FileEntry.zero with
              name := name.take (MAX_FILENAME - 1), data := data.take (MAX_DATA - 1),
              in_use := 1 }).1 }, CreateResult.Stored (create_replicas s.nodes
            { s.files.getD index FileEntry.zero with
              name := name.take (MAX_FILENAME - 1), data := data.take (MAX_DATA - 1),
              in_use := 1 }).2) := by
      unfold create_file
      rw [if_neg (by simp [hnone]), hfree]
    split_ifs at hcf with hz
    · rw [hcf] at hc
      cases hc
    · rw [hcf]
      refine ⟨rfl, List.length_set _ _ _, index, f0, hf0, hu0, hmin, ?_, ?_⟩
      · intro j hj
        simp only
        rw [List.getElem?_set, if_neg (fun e => hj e.symm)]
      · have hget : ∀ g : FileEntry, (s.files.set index g)[index]? = some g := by
          intro g
          rw [List.getElem?_set, if_pos rfl, if_pos hidxlt]
        exact ⟨_, hget _, rfl, rfl, rfl⟩

set_option maxRecDepth 100000 in
/-- C16 at `degraded_state`: storing file `b` leaves the degraded file `a` in slot 0 as it
is, although node 3 is up and holds no replica of it. -/
theorem create_file_touches_only_new_slot_witness :
    (create_file degraded_state ['b'] ['y']).2 = CreateResult.Stored 3 ∧
    ((create_file degraded_state ['b'] ['y']).1.nodes = degraded_state.nodes ∧
    (create_file degraded_state ['b'] ['y']).1.files.length = degraded_state.files.length ∧
    ∃ (index : Nat) (f0 : FileEntry), degraded_state.files[index]? = some f0 ∧ f0.in_use = 0 ∧
      (∀ j g, j < index → degraded_state.files[j]? = some g → g.in_use ≠ 0) ∧
      (∀ j, j ≠ index →
        (create_file degraded_state ['b'] ['y']).1.files[j]? = degraded_state.files[j]?) ∧
      ∃ f, (create_file degraded_state ['b'] ['y']).1.files[index]? = some f ∧ f.in_use = 1 ∧
        f.name = ['b'].take (MAX_FILENAME - 1) ∧ f.data = ['y'].take (MAX_DATA - 1)) :=
  ⟨by decide, create_file_touches_only_new_slot degraded_state ['b'] ['y'] 3 (by decide)⟩

/-! ## Termination of the healing loop -/

theorem count_eq_length_active (f : FileEntry) :
    count_active_replicas f = (active_nodes f.replicas).length := by
  simp only [count_active_replicas, active_nodes, List.length_map, List.countP_eq_length_filter]

theorem heal_fill_count {n : Int} {f : FileEntry} {rs : List FileReplica}
    (h : heal_fill n f.replicas = some rs) :
    count_active_replicas { f with replicas := rs } = count_active_replicas f + 1 := by
  rw [count_eq_length_active, count_eq_length_active, (heal_fill_active_perm h).length_eq]
  rfl

/-- The node loop keeps `active` in step with the file and prints one line for each slot it
fills: the rise of `active`, the rise of the active-replica count and the number of new
healing lines are the same. -/
theorem heal_scan_active (nodes : List Node) (todo n : Nat) (f : FileEntry) (a : Nat)
    (ev : List HealEvent) :
    (heal_scan nodes false todo n f a ev).2.1 + count_active_replicas f =
      a + count_active_replicas (heal_scan nodes false todo n f a ev).1 ∧
    (heal_scan nodes false todo n f a ev).2.2.length + a =
      ev.length + (heal_scan nodes false todo n f a ev).2.1 := by
  induction todo generalizing n f a ev with
  | zero => exact ⟨rfl, rfl⟩
  | succ todo ih =>
    rcases heal_scan_cases nodes todo n f a ev with h | ⟨rs, _, _, hf, h⟩
    · rw [h]
      exact ih _ _ _ _
    · rw [h]
      obtain ⟨h1, h2⟩ := ih (n + 1) { f with replicas := rs } (a + 1)
        (ev ++ [{ name := f.name, node := (n : Int) }])
      rw [heal_fill_count hf] at h1
      rw [List.length_append, List.length_singleton] at h2
      constructor
      · omega
      · omega

/-- C18: the loop `while (active < REPLICA_COUNT)` ends for every file and every state: with
any positive bound on its turns it returns, and it returns the same with the bound 1, so its
body runs at most once; the value is what `heal_file` returns. In that turn `active` follows
the active-replica count, which only rises, by one for each healing line printed, and never
exceeds the number of slots. -/
theorem heal_while_terminates (nodes : List Node) (fuel : Nat) (f : FileEntry) :
    (∀ (a : Nat) (ev : List HealEvent), ∃ r, heal_while nodes (fuel + 1) f a ev = some r ∧
      heal_while nodes 1 f a ev = some r) ∧
    heal_while nodes (fuel + 1) f (count_active_replicas f) [] = some (heal_file nodes f) ∧
    (heal_scan nodes false MAX_NODES 0 f (count_active_replicas f) []).2.1 =
      count_active_replicas (heal_scan nodes false MAX_NODES 0 f (count_active_replicas f) []).1 ∧
    count_active_replicas (heal_file nodes f).1 =
      count_active_replicas f + (heal_file nodes f).2.length ∧
    count_active_replicas (heal_file nodes f).1 ≤ f.replicas.length := by
  refine ⟨?_, ?_, ?_, ?_, ?_⟩
  · intro a ev
    exact ⟨_, heal_while_some nodes fuel f a ev, heal_while_some nodes 0 f a ev⟩
  · rw [heal_while_some, heal_file_eq]
  · have h := (heal_scan_active nodes MAX_NODES 0 f (count_active_replicas f) []).1
    omega
  · rw [heal_file_eq]
    split_ifs
    · obtain ⟨h1, h2⟩ := heal_scan_active nodes MAX_NODES 0 f (count_active_replicas f) []
      simp only [List.length_nil] at h2
      simp only
      omega
    · rfl
  · rw [← (heal_file_frame nodes f).2.2.2.length_eq]
    exact List.countP_le_length _

/-! ## The state invariant: active replicas sit on up nodes and every file is settled -/

theorem node_is_up_set_ne (nodes : List Node) (i k : Nat) (nd : Node) (h : k ≠ i) :
    node_is_up (nodes.set i nd) k = node_is_up nodes k := by
  unfold node_is_up
  rw [List.getD_eq_getElem?_getD, List.getD_eq_getElem?_getD, List.getElem?_set,
    if_neg (fun e => h e.symm)]

theorem node_is_up_set_eq (nodes : List Node) (i : Nat) (nd : Node) (h : i < nodes.length) :
    node_is_up (nodes.set i nd) i = decide (nd.is_up ≠ 0) := by
  unfold node_is_up
  rw [List.getD_eq_getElem?_getD, List.getElem?_set, if_pos rfl, if_pos h]
  rfl

theorem node_id_up_nat (nodes : List Node) (n : Nat) :
    node_id_up nodes (n : Int) ↔ n < MAX_NODES ∧ node_is_up nodes n = true := by
  unfold node_id_up
  rw [Int.toNat_ofNat]
  constructor
  · rintro ⟨_, h1, h2⟩
    exact ⟨by exact_mod_cast h1, h2⟩
  · rintro ⟨h1, h2⟩
    exact ⟨Int.ofNat_nonneg n, by exact_mod_cast h1, h2⟩

theorem heal_fill_mem {n : Int} {rs rs2 : List FileReplica} (h : heal_fill n rs = some rs2) :
    ∀ r ∈ rs2, r ∈ rs ∨ r = { node_id := n, is_active := 1 } := by
  induction rs generalizing rs2 with
  | nil => simp [heal_fill] at h
  | cons a rs ih =>
    by_cases ha : a.is_active = 0
    · simp only [heal_fill, ha, if_true, Option.some.injEq] at h
      subst h
      intro r hr
      rcases List.mem_cons.1 hr with hr | hr
      · exact Or.inr hr
      · exact Or.inl (List.mem_cons_of_mem _ hr)
    · simp only [heal_fill, ha, if_false, Option.map_eq_some'] at h
      obtain ⟨t, ht, e⟩ := h
      subst e
      intro r hr
      rcases List.mem_cons.1 hr with hr | hr
      · exact Or.inl (hr ▸ List.mem_cons_self _ _)
      · rcases ih ht r hr with h1 | h1
        · exact Or.inl (List.mem_cons_of_mem _ h1)
        · exact Or.inr h1

theorem heal_scan_live (nodes : List Node) (todo n : Nat) (f : FileEntry) (a : Nat)
    (ev : List HealEvent) (hn : n + todo ≤ MAX_NODES) (h : LiveSlots nodes f) :
    LiveSlots nodes (heal_scan nodes false todo n f a ev).1 := by
  induction todo generalizing n f a ev with
  | zero => exact h
  | succ todo ih =>
    rcases heal_scan_cases nodes todo n f a ev with e | ⟨rs, hu, _, hf, e⟩
    · rw [e]
      exact ih _ _ _ _ (by omega) h
    · rw [e]
      refine ih _ _ _ _ (by omega) ?_
      intro r hr hact
      rcases heal_fill_mem hf r hr with h1 | h1
      · exact h r h1 hact
      · rw [h1]
        exact (node_id_up_nat nodes n).2 ⟨by omega, hu⟩

theorem heal_slot_live (nodes : List Node) (f : FileEntry) (h : LiveSlots nodes f) :
    LiveSlots nodes (heal_slot nodes f) := by
  unfold heal_slot
  split_ifs
  · exact h
  · rw [heal_file_eq]
    split_ifs
    · exact heal_scan_live nodes MAX_NODES 0 f _ _ (by omega) h
    · exact h

/-- Healing a catalog whose used files have their active replicas on up nodes gives a
catalog whose used files have their active replicas on up nodes and are settled. -/
theorem heal_files_inv (nodes : List Node) (fs : List FileEntry)
    (h : ∀ f ∈ fs, f.in_use ≠ 0 → LiveSlots nodes f) :
    ∀ f ∈ (heal_files nodes fs).1, f.in_use ≠ 0 → LiveSlots nodes f ∧ Settled nodes f := by
  intro f hf hu
  refine ⟨?_, heal_files_settled nodes fs f hf hu⟩
  rw [heal_files_fst] at hf
  obtain ⟨g, hg, e⟩ := List.mem_map.1 hf
  subst e
  rw [(heal_slot_frame nodes g).2.2.1] at hu
  exact heal_slot_live nodes g (h g hg hu)

theorem stateInv_init : StateInv init_system := by
  refine ⟨rfl, ?_⟩
  intro f hf hu
  have e : f = FileEntry.zero := List.eq_of_mem_replicate hf
  subst e
  exact absurd rfl hu

theorem new_file_live (nodes : List Node) (name data : List Char) :
    LiveSlots nodes (new_file nodes name data) := by
  intro r hr hact
  simp only [new_file, List.mem_append, List.mem_map] at hr
  rcases hr with ⟨u, hu, rfl⟩ | hr
  · exact (placed_on_live nodes u (List.mem_of_mem_take hu)).2
  · rw [List.eq_of_mem_replicate hr] at hact
    exact absurd rfl hact

theorem new_file_settled (nodes : List Node) (name data : List Char) :
    Settled nodes (new_file nodes name data) := by
  by_cases hk : REPLICA_COUNT ≤ ((up_nodes nodes).take REPLICA_COUNT).length
  · left
    rw [new_file_count]
    exact hk
  · right
    intro m hm hup
    left
    have hlen : (up_nodes nodes).length ≤ REPLICA_COUNT := by
      rw [List.length_take] at hk
      omega
    have hmem : m ∈ (up_nodes nodes).take REPLICA_COUNT := by
      rw [List.take_of_length_le hlen]
      unfold up_nodes
      rw [List.mem_filter, List.mem_range]
      exact ⟨hm, hup⟩
    simp only [is_node_already_replica, List.any_eq_true, decide_eq_true_eq]
    refine ⟨placed_on m, ?_, by simp [placed_on], rfl⟩
    simp only [new_file, List.mem_append, List.mem_map]
    exact Or.inl ⟨m, hmem, rfl⟩

theorem stateInv_create (s : State) (name data : List Char) (h : StateInv s)
    (hf : FilesInv s.files) : StateInv (create_file s name data).1 := by
  by_cases hdup : find_file_index s.files name = none
  · cases hfree : find_free_slot s.files with
    | none =>
      rw [create_file_full s name data hdup hfree]
      exact h
    | some index =>
      rw [create_file_placed s name data index (fun f hm => (hf f hm).1) hdup hfree]
      split_ifs
      · refine ⟨h.1, ?_⟩
        intro f hm hu
        rcases List.mem_or_eq_of_mem_set hm with hm | hm
        · exact h.2 f hm hu
        · rw [hm] at hu
          exact absurd rfl hu
      · refine ⟨h.1, ?_⟩
        intro f hm hu
        rcases List.mem_or_eq_of_mem_set hm with hm | hm
        · exact h.2 f hm hu
        · rw [hm]
          exact ⟨new_file_live s.nodes name data, new_file_settled s.nodes name data⟩
  · rw [create_file_duplicate s name data hdup]
    exact h

theorem fail_node_done (s : State) (id : Int) (h0 : 0 ≤ id) (h1 : id < (MAX_NODES : Int))
    (hu : node_is_up s.nodes id.toNat = true) :
    fail_node s id =
      ((heal_replication
          { nodes := s.nodes.set id.toNat { (s.nodes.getD id.toNat Node.zero) with is_up := 0 },
            files := s.files.map (invalidate_replicas id) }).1,
        NodeResult.Done,
        (heal_replication
          { nodes := s.nodes.set id.toNat { (s.nodes.getD id.toNat Node.zero) with is_up := 0 },
            files := s.files.map (invalidate_replicas id) }).2) := by
  have h2 : ¬ (id < 0 ∨ id ≥ (MAX_NODES : Int)) := by
    intro h
    rcases h with h | h
    · exact absurd h0 (not_le.2 h)
    · exact absurd h1 (not_lt.2 h)
  unfold fail_node
  rw [if_neg h2, if_neg (by simp [hu])]

theorem recover_node_done (s : State) (id : Int) (h0 : 0 ≤ id) (h1 : id < (MAX_NODES : Int))
    (hd : node_is_up s.nodes id.toNat = false) :
    recover_node s id =
      ((heal_replication
          { s with nodes :=
            s.nodes.set id.toNat { (s.nodes.getD id.toNat Node.zero) with is_up := 1 } }).1,
        NodeResult.Done,
        (heal_replication
          { s with nodes :=
            s.nodes.set id.toNat { (s.nodes.getD id.toNat Node.zero) with is_up := 1 } }).2) := by
  have h2 : ¬ (id < 0 ∨ id ≥ (MAX_NODES : Int)) := by
    intro h
    rcases h with h | h
    · exact absurd h0 (not_le.2 h)
    · exact absurd h1 (not_lt.2 h)
  unfold recover_node
  rw [if_neg h2, if_neg (by simp [hd])]

/-- A rejected `fail_node` returns the state it was given. -/
theorem fail_node_cases (s : State) (id : Int) :
    (fail_node s id).1 = s ∨
    (0 ≤ id ∧ id < (MAX_NODES : Int) ∧ node_is_up s.nodes id.toNat = true) := by
  by_cases h0 : 0 ≤ id
  · by_cases h1 : id < (MAX_NODES : Int)
    · cases hu : node_is_up s.nodes id.toNat with
      | true => exact Or.inr ⟨h0, h1, rfl⟩
      | false =>
        left
        unfold fail_node
        rw [if_neg (by omega), if_pos (by simp [hu])]
    · left
      unfold fail_node
      rw [if_pos (Or.inr (by omega))]
  · left
    unfold fail_node
    rw [if_pos (Or.inl (by omega))]

/-- A rejected `recover_node` returns the state it was given. -/
theorem recover_node_cases (s : State) (id : Int) :
    (recover_node s id).1 = s ∨
    (0 ≤ id ∧ id < (MAX_NODES : Int) ∧ node_is_up s.nodes id.toNat = false) := by
  by_cases h0 : 0 ≤ id
  · by_cases h1 : id < (MAX_NODES : Int)
    · cases hu : node_is_up s.nodes id.toNat with
      | false => exact Or.inr ⟨h0, h1, rfl⟩
      | true =>
        left
        unfold recover_node
        rw [if_neg (by omega), if_pos hu]
    · left
      unfold recover_node
      rw [if_pos (Or.inr (by omega))]
  · left
    unfold recover_node
    rw [if_pos (Or.inl (by omega))]

theorem invalidate_replicas_frame (id : Int) (f : FileEntry) :
    (invalidate_replicas id f).name = f.name ∧ (invalidate_replicas id f).data = f.data ∧
    (invalidate_replicas id f).in_use = f.in_use ∧
    (invalidate_replicas id f).replicas.length = f.replicas.length := by
  unfold invalidate_replicas
  split_ifs
  · exact ⟨rfl, rfl, rfl, rfl⟩
  · exact ⟨rfl, rfl, rfl, List.length_map _ _⟩

/-- After the slots on node `id` are dropped, the active slots that remain are active slots
of the file on other nodes. -/
theorem invalidate_replicas_mem (id : Int) (f : FileEntry) (r : FileReplica)
    (hr : r ∈ (invalidate_replicas id f).replicas) (hact : r.is_active ≠ 0)
    (hu : f.in_use ≠ 0) : r ∈ f.replicas ∧ r.node_id ≠ id := by
  unfold invalidate_replicas at hr
  rw [if_neg hu] at hr
  simp only [List.mem_map] at hr
  obtain ⟨r0, hr0, e⟩ := hr
  split_ifs at e with hc
  · rw [← e] at hact
    exact absurd rfl hact
  · subst e
    refine ⟨hr0, fun hn => hc ⟨hact, hn⟩⟩

theorem stateInv_fail (s : State) (id : Int) (h : StateInv s) :
    StateInv (fail_node s id).1 := by
  rcases fail_node_cases s id with e | ⟨h0, h1, hu⟩
  · rw [e]
    exact h
  · rw [fail_node_done s id h0 h1 hu]
    refine ⟨by simp only [heal_replication, List.length_set]; exact h.1, ?_⟩
    apply heal_files_inv
    intro f hf hin
    obtain ⟨g, hg, e⟩ := List.mem_map.1 hf
    subst e
    rw [(invalidate_replicas_frame id g).2.2.1] at hin
    intro r hr hact
    obtain ⟨hr0, hne⟩ := invalidate_replicas_mem id g r hr hact hin
    obtain ⟨k0, k1, k2⟩ := (h.2 g hg hin).1 r hr0 hact
    refine ⟨k0, k1, ?_⟩
    rw [node_is_up_set_ne _ _ _ _ (by omega)]
    exact k2

theorem stateInv_recover (s : State) (id : Int) (h : StateInv s) :
    StateInv (recover_node s id).1 := by
  rcases recover_node_cases s id with e | ⟨h0, h1, hd⟩
  · rw [e]
    exact h
  · rw [recover_node_done s id h0 h1 hd]
    refine ⟨by simp only [heal_replication, List.length_set]; exact h.1, ?_⟩
    apply heal_files_inv
    intro f hf hin r hr hact
    obtain ⟨k0, k1, k2⟩ := (h.2 f hf hin).1 r hr hact
    refine ⟨k0, k1, ?_⟩
    by_cases hk : r.node_id.toNat = id.toNat
    · rw [hk, node_is_up_set_eq _ _ _ (by rw [h.1]; omega)]
      rfl
    · rw [node_is_up_set_ne _ _ _ _ hk]
      exact k2

theorem stateInv_reachable (s : State) (h : Reachable s) : StateInv s := by
  induction h with
  | init => exact stateInv_init
  | @create s name data hs _ _ ih => exact stateInv_create _ name data ih (filesInv_reachable s hs)
  | read name _ ih =>
    rw [read_file_fst]
    exact ih
  | fail id _ ih => exact stateInv_fail _ id ih
  | recover id _ ih => exact stateInv_recover _ id ih

/-! ## Unique names -/

theorem namesUnique_map (g : FileEntry → FileEntry) (fs : List FileEntry)
    (hg : ∀ f, (g f).name = f.name ∧ (g f).in_use = f.in_use) (h : NamesUnique fs) :
    NamesUnique (fs.map g) := by
  intro i j a b hij ha hb hau hbu
  rw [List.getElem?_map] at ha hb
  cases hi : fs[i]? with
  | none => simp [hi] at ha
  | some a0 =>
    cases hj : fs[j]? with
    | none => simp [hj] at hb
    | some b0 =>
      simp only [hi, hj, Option.map_some', Option.some.injEq] at ha hb
      subst ha
      subst hb
      rw [(hg a0).2] at hau
      rw [(hg b0).2] at hbu
      rw [(hg a0).1, (hg b0).1]
      exact h i j a0 b0 hij hi hj hau hbu

theorem namesUnique_set (fs : List FileEntry) (index : Nat) (x : FileEntry)
    (h : NamesUnique fs)
    (hx : x.in_use ≠ 0 → ∀ g ∈ fs, g.in_use ≠ 0 → g.name ≠ x.name) :
    NamesUnique (fs.set index x) := by
  intro i j a b hij ha hb hau hbu
  rw [List.getElem?_set] at ha hb
  by_cases hi : index = i
  · have hj : ¬ index = j := fun e => hij (hi.symm.trans e)
    rw [if_pos hi] at ha
    rw [if_neg hj] at hb
    split_ifs at ha
    simp only [Option.some.injEq] at ha
    subst ha
    exact fun e => hx hau b (List.getElem?_mem hb) hbu e.symm
  · rw [if_neg hi] at ha
    by_cases hj : index = j
    · rw [if_pos hj] at hb
      split_ifs at hb
      simp only [Option.some.injEq] at hb
      subst hb
      exact hx hbu a (List.getElem?_mem ha) hau
    · rw [if_neg hj] at hb
      exact h i j a b hij ha hb hau hbu

theorem namesUnique_init : NamesUnique init_system.files := by
  intro i j a b _ ha _ hau
  have e : a = FileEntry.zero := List.eq_of_mem_replicate (List.getElem?_mem ha)
  subst e
  exact absurd rfl hau

theorem namesUnique_create (s : State) (name data : List Char) (h : NamesUnique s.files)
    (hf : FilesInv s.files) (hn : name.length < MAX_FILENAME) :
    NamesUnique (create_file s name data).1.files := by
  by_cases hdup : find_file_index s.files name = none
  · cases hfree : find_free_slot s.files with
    | none =>
      rw [create_file_full s name data hdup hfree]
      exact h
    | some index =>
      rw [create_file_placed s name data index (fun f hm => (hf f hm).1) hdup hfree]
      split_ifs
      · exact namesUnique_set _ _ _ h (fun hu => absurd rfl hu)
      · refine namesUnique_set _ _ _ h ?_
        intro _ g hg hgu hname
        have hnm : (new_file s.nodes name data).name = name :=
          List.take_of_length_le (by omega)
        rw [hnm] at hname
        exact (find_file_index_eq_none_iff _ _).1 hdup ⟨g, hg, hgu, hname⟩
  · rw [create_file_duplicate s name data hdup]
    exact h

theorem namesUnique_heal (nodes : List Node) (fs : List FileEntry) (h : NamesUnique fs) :
    NamesUnique (heal_files nodes fs).1 := by
  rw [heal_files_fst]
  exact namesUnique_map _ fs
    (fun f => ⟨(heal_slot_frame nodes f).1, (heal_slot_frame nodes f).2.2.1⟩) h

theorem namesUnique_fail (s : State) (id : Int) (h : NamesUnique s.files) :
    NamesUnique (fail_node s id).1.files := by
  rcases fail_node_cases s id with e | ⟨h0, h1, hu⟩
  · rw [e]
    exact h
  · rw [fail_node_done s id h0 h1 hu]
    exact namesUnique_heal _ _ (namesUnique_map _ s.files
      (fun f => ⟨(invalidate_replicas_frame id f).1, (invalidate_replicas_frame id f).2.2.1⟩) h)

theorem namesUnique_recover (s : State) (id : Int) (h : NamesUnique s.files) :
    NamesUnique (recover_node s id).1.files := by
  rcases recover_node_cases s id with e | ⟨h0, h1, hd⟩
  · rw [e]
    exact h
  · rw [recover_node_done s id h0 h1 hd]
    exact namesUnique_heal _ _ h

theorem namesUnique_reachable (s : State) (h : Reachable s) : NamesUnique s.files := by
  induction h with
  | init => exact namesUnique_init
  | @create s name data hs hn _ ih =>
    exact namesUnique_create _ name data ih (filesInv_reachable s hs) hn
  | read name _ ih =>
    rw [read_file_fst]
    exact ih
  | fail id _ ih => exact namesUnique_fail _ id ih
  | recover id _ ih => exact namesUnique_recover _ id ih

/-- With unique names `find_file_index` finds a used file under its own name at its own
slot. -/
theorem find_file_index_own (fs : List FileEntry) (i : Nat) (f : FileEntry)
    (h : NamesUnique fs) (hf : fs[i]? = some f) (hu : f.in_use ≠ 0) :
    find_file_index fs f.name = some i := by
  cases hfind : find_file_index fs f.name with
  | none =>
    exact absurd ⟨f, List.getElem?_mem hf, hu, rfl⟩
      ((find_file_index_eq_none_iff fs f.name).1 hfind)
  | some idx =>
    obtain ⟨g, hg, ⟨hgu, hgn⟩, _⟩ := (find_file_index_eq_some_iff fs f.name idx).1 hfind
    by_cases e : idx = i
    · rw [e]
    · exact absurd hgn (h idx i g f e hg hf hgu hu)

/-- C19: in every reachable state no two used file slots hold the same name, so
`find_file_index` on the name of a used file returns the slot of that very file. -/
theorem reachable_names_unique (s : State) (h : Reachable s) :
    (∀ (i j : Nat) (f g : FileEntry), i ≠ j → s.files[i]? = some f → s.files[j]? = some g →
      f.in_use ≠ 0 → g.in_use ≠ 0 → f.name ≠ g.name) ∧
    ∀ (i : Nat) (f : FileEntry), s.files[i]? = some f → f.in_use ≠ 0 →
      find_file_index s.files f.name = some i :=
  ⟨namesUnique_reachable s h,
    fun i f hf hu => find_file_index_own s.files i f (namesUnique_reachable s h) hf hu⟩

/-! ## The replication factor on reachable states -/

theorem mem_active_nodes_iff (rs : List FileReplica) (x : Int) :
    x ∈ active_nodes rs ↔ ∃ r ∈ rs, r.is_active ≠ 0 ∧ r.node_id = x := by
  simp only [active_nodes, List.mem_map, List.mem_filter, decide_eq_true_eq]
  constructor
  · rintro ⟨r, ⟨hr, ha⟩, hn⟩
    exact ⟨r, hr, ha, hn⟩
  · rintro ⟨r, hr, ha, hn⟩
    exact ⟨r, ⟨hr, ha⟩, hn⟩

/-- The active node ids of a file whose active slots are live are ids of up nodes. -/
theorem active_nodes_subset_up (nodes : List Node) (f : FileEntry) (hl : LiveSlots nodes f) :
    active_nodes f.replicas ⊆ (up_nodes nodes).map (fun n : Nat => (n : Int)) := by
  intro x hx
  obtain ⟨r, hr, ha, hn⟩ := (mem_active_nodes_iff _ _).1 hx
  obtain ⟨k0, k1, k2⟩ := hl r hr ha
  rw [hn] at k0 k1 k2
  refine List.mem_map.2 ⟨x.toNat, ?_, Int.toNat_of_nonneg k0⟩
  unfold up_nodes
  rw [List.mem_filter, List.mem_range]
  exact ⟨by omega, k2⟩

/-- A settled file with `REPLICA_COUNT` slots, distinct active nodes and live active
slots has exactly `min(REPLICA_COUNT, number of up nodes)` active replicas. -/
theorem count_eq_min_of_inv (nodes : List Node) (f : FileEntry)
    (hlen : f.replicas.length = REPLICA_COUNT) (hnd : (active_nodes f.replicas).Nodup)
    (hl : LiveSlots nodes f) (hs : Settled nodes f) :
    count_active_replicas f = min REPLICA_COUNT (up_nodes nodes).length := by
  have hle3 : count_active_replicas f ≤ REPLICA_COUNT := by
    rw [← hlen]
    exact List.countP_le_length _
  have hleU : count_active_replicas f ≤ (up_nodes nodes).length := by
    rw [count_eq_length_active]
    have := (List.subperm_of_subset hnd (active_nodes_subset_up nodes f hl)).length_le
    rwa [List.length_map] at this
  have hge : REPLICA_COUNT ≤ count_active_replicas f ∨
      (up_nodes nodes).length ≤ count_active_replicas f := by
    rcases hs with h | h
    · exact Or.inl h
    · by_cases hall : AllActive f.replicas
      · left
        unfold count_active_replicas
        rw [allActive_countP hall, hlen]
      · right
        rw [count_eq_length_active]
        have hsub : (up_nodes nodes).map (fun n : Nat => (n : Int)) ⊆
            active_nodes f.replicas := by
          intro x hx
          obtain ⟨m, hm, rfl⟩ := List.mem_map.1 hx
          obtain ⟨hm4, hmu⟩ := up_nodes_mem nodes m hm
          rcases h m hm4 hmu with h1 | h1
          · exact (is_node_already_replica_iff f _).1 h1
          · exact absurd h1 hall
        have hnU : ((up_nodes nodes).map (fun n : Nat => (n : Int))).Nodup :=
          (up_nodes_nodup nodes).map (fun a b e => Int.ofNat.inj e)
        have := (List.subperm_of_subset hnU hsub).length_le
        rwa [List.length_map] at this
  rcases hge with h | h
  · rw [Nat.le_antisymm hle3 h]
    exact (min_eq_left (by omega)).symm
  · rw [Nat.le_antisymm hleU h]
    exact (min_eq_right (by omega)).symm

/-- C15: in every reachable state every used file has exactly
`min(REPLICA_COUNT, number of up nodes)` active replicas, so it is below `REPLICA_COUNT`
only when fewer than `REPLICA_COUNT` nodes are up. -/
theorem reachable_replication_factor (s : State) (h : Reachable s) :
    ∀ f ∈ s.files, f.in_use ≠ 0 →
      count_active_replicas f = min REPLICA_COUNT (up_nodes s.nodes).length ∧
      (count_active_replicas f < REPLICA_COUNT → (up_nodes s.nodes).length < REPLICA_COUNT) := by
  intro f hf hu
  obtain ⟨hlen, hnd⟩ := filesInv_reachable s h f hf
  obtain ⟨hl, hs⟩ := (stateInv_reachable s h).2 f hf hu
  have hc := count_eq_min_of_inv s.nodes f hlen (hnd hu) hl hs
  refine ⟨hc, fun hlt => ?_⟩
  rw [hc] at hlt
  exact (min_lt_iff.1 hlt).resolve_left (lt_irrefl _)

/-! ## Active replicas sit on up nodes: reading and listing -/

theorem read_scan_forms (nodes : List Node) (f : FileEntry) (rs : List FileReplica) :
    read_scan nodes f rs = ReadResult.Unavailable ∨
    ∃ n, read_scan nodes f rs = ReadResult.Served n f.name f.data := by
  induction rs with
  | nil => exact Or.inl rfl
  | cons r rs ih =>
    by_cases h : slot_live nodes r
    · exact Or.inr ⟨r.node_id, read_scan_cons_live nodes f r rs h⟩
    · rw [read_scan_cons_dead nodes f r rs h]
      exact ih

theorem list_replicas_live (nodes : List Node) (rs : List FileReplica)
    (h : ∀ r ∈ rs, r.is_active ≠ 0 → node_id_up nodes r.node_id) :
    ∃ rl, list_replicas nodes rs = some rl ∧ ∀ p ∈ rl, p.2 = true := by
  induction rs with
  | nil => exact ⟨[], rfl, fun p hp => absurd hp (List.not_mem_nil p)⟩
  | cons r rs ih =>
    obtain ⟨rl, hrl, hall⟩ := ih (fun x hx => h x (List.mem_cons_of_mem _ hx))
    by_cases ha : r.is_active = 0
    · exact ⟨rl, by simp only [list_replicas, ha, if_true, hrl], hall⟩
    · obtain ⟨k0, k1, k2⟩ := h r (List.mem_cons_self _ _) ha
      refine ⟨(r.node_id, node_is_up nodes r.node_id.toNat) :: rl, ?_, ?_⟩
      · simp only [list_replicas, ha, if_false, k0, k1, and_self, if_true, hrl, Option.map_some']
      · intro p hp
        rcases List.mem_cons.1 hp with hp | hp
        · rw [hp]
          exact k2
        · exact hall p hp

theorem list_files_from_live (nodes : List Node) (fs : List FileEntry)
    (h : ∀ f ∈ fs, f.in_use ≠ 0 → LiveSlots nodes f) :
    ∃ out, list_files_from nodes fs = some out ∧
      ∀ e ∈ out, ∀ p ∈ e.replicas, p.2 = true := by
  induction fs with
  | nil => exact ⟨[], rfl, fun e he => absurd he (List.not_mem_nil e)⟩
  | cons f fs ih =>
    obtain ⟨out, hout, hall⟩ := ih (fun x hx => h x (List.mem_cons_of_mem _ hx))
    by_cases hu : f.in_use = 0
    · exact ⟨out, by simp only [list_files_from, hu, if_true, hout], hall⟩
    · obtain ⟨rl, hrl, hrall⟩ := list_replicas_live nodes f.replicas
        (h f (List.mem_cons_self _ _) hu)
      refine ⟨{ name := f.name, data := f.data, replicas := rl } :: out, ?_, ?_⟩
      · simp only [list_files_from, hu, if_false, hrl, hout, Option.map_some']
      · intro e he
        rcases List.mem_cons.1 he with he | he
        · rw [he]
          exact hrall
        · exact hall e he

/-- A used file of a state with unique names is what `read_file` reads under its name. -/
theorem read_file_own (s : State) (i : Nat) (f : FileEntry) (h : NamesUnique s.files)
    (hf : s.files[i]? = some f) (hu : f.in_use ≠ 0) :
    (read_file s f.name).2 = read_scan s.nodes f f.replicas :=
  read_file_snd_eq s f.name i f (find_file_index_own s.files i f h hf hu) hf

/-- C20: in every reachable state every active replica slot of a used file holds the id of
a node of the registry that is up; hence `read_file` on the name of a used file succeeds
exactly when the file has an active replica, and `list_files` never indexes `nodes` out of
range and shows every listed replica as UP. -/
theorem reachable_active_replicas_live (s : State) (h : Reachable s) :
    (∀ f ∈ s.files, f.in_use ≠ 0 → ∀ r ∈ f.replicas, r.is_active ≠ 0 →
      0 ≤ r.node_id ∧ r.node_id < (MAX_NODES : Int) ∧
      node_is_up s.nodes r.node_id.toNat = true) ∧
    (∀ f ∈ s.files, f.in_use ≠ 0 →
      ((∃ n, (read_file s f.name).2 = ReadResult.Served n f.name f.data) ↔
        1 ≤ count_active_replicas f)) ∧
    ∃ out, list_files s = some out ∧ ∀ e ∈ out, ∀ p ∈ e.replicas, p.2 = true := by
  have hinv := stateInv_reachable s h
  refine ⟨fun f hf hu r hr ha => (hinv.2 f hf hu).1 r hr ha, ?_,
    list_files_from_live s.nodes s.files (fun f hf hu => (hinv.2 f hf hu).1)⟩
  intro f hf hu
  obtain ⟨i, hi⟩ := List.mem_iff_getElem?.1 hf
  rw [read_file_own s i f (namesUnique_reachable s h) hi hu]
  have hl : LiveSlots s.nodes f := (hinv.2 f hf hu).1
  have hun : read_scan s.nodes f f.replicas = ReadResult.Unavailable ↔
      count_active_replicas f = 0 := by
    rw [read_scan_unavailable_iff]
    unfold count_active_replicas
    rw [List.countP_eq_zero]
    constructor
    · intro hall r hr
      simp only [decide_eq_true_eq]
      exact fun ha => hall r hr ⟨ha, hl r hr ha⟩
    · intro hall r hr hlive
      have := hall r hr
      simp only [decide_eq_true_eq] at this
      exact this hlive.1
  constructor
  · rintro ⟨n, hn⟩
    by_contra hc
    have h0 : count_active_replicas f = 0 := by omega
    rw [hun.2 h0] at hn
    cases hn
  · intro hc
    rcases read_scan_forms s.nodes f f.replicas with hr | hr
    · have := hun.1 hr
      omega
    · exact hr

/-! ## Healing with a single eligible node -/

theorem heal_fill_first_inactive (n : Int) (rs : List FileReplica) (i : Nat) (r : FileReplica)
    (hr : rs[i]? = some r) (h0 : r.is_active = 0)
    (hmin : ∀ j y, j < i → rs[j]? = some y → y.is_active ≠ 0) :
    heal_fill n rs = some (rs.set i { node_id := n, is_active := 1 }) := by
  induction rs generalizing i with
  | nil => simp at hr
  | cons a rs ih =>
    cases i with
    | zero =>
      simp only [List.getElem?_cons_zero, Option.some.injEq] at hr
      subst hr
      simp only [heal_fill, h0, if_true, List.set_cons_zero]
    | succ i =>
      have ha : a.is_active ≠ 0 := hmin 0 a (Nat.succ_pos i) List.getElem?_cons_zero
      have ih2 := ih i (by simpa using hr)
        (fun j y hj hy => hmin (j + 1) y (by omega) (by simpa using hy))
      simp only [heal_fill, ha, if_false, ih2, Option.map_some', List.set_cons_succ]

theorem exists_first_inactive (rs : List FileReplica) (h : ¬ AllActive rs) :
    ∃ (i : Nat) (r : FileReplica), rs[i]? = some r ∧ r.is_active = 0 ∧
      ∀ (j : Nat) (y : FileReplica), j < i → rs[j]? = some y → y.is_active ≠ 0 := by
  cases hfi : first_index (fun r : FileReplica => decide (r.is_active = 0)) rs with
  | none =>
    exfalso
    apply h
    intro r hr
    have := (first_index_eq_none_iff _ rs).1 hfi r hr
    simpa using this
  | some i =>
    obtain ⟨r, hr, hp, hmin⟩ := (first_index_eq_some_iff _ rs i).1 hfi
    refine ⟨i, r, hr, by simpa using hp, ?_⟩
    intro j y hj hy
    have := hmin j y hj hy
    simpa using this

/-- When `m` is the only node of the scan that is up and holds no replica of `f`, and a slot
of `f` is free, the node loop fills the first free slot with `m` and prints one line. -/
theorem heal_scan_single (nodes : List Node) (todo n : Nat) (f : FileEntry) (a : Nat)
    (ev : List HealEvent) (m : Nat) (rs : List FileReplica)
    (hm1 : n ≤ m) (hm2 : m < n + todo) (hup : node_is_up nodes m = true)
    (hfree : is_node_already_replica f (m : Int) = false)
    (hothers : ∀ k, n ≤ k → k < n + todo → k ≠ m → node_is_up nodes k = true →
      is_node_already_replica f (k : Int) = true)
    (hfill : heal_fill (m : Int) f.replicas = some rs) :
    heal_scan nodes false todo n f a ev =
      ({ f with replicas := rs }, a + 1, ev ++ [{ name := f.name, node := (m : Int) }]) := by
  induction todo generalizing n with
  | zero => omega
  | succ todo ih =>
    by_cases hnm : n = m
    · subst hnm
      rw [heal_scan_fill nodes todo n f a ev rs hup hfree hfill]
      apply heal_scan_noop
      intro k hk1 hk2 hku
      left
      have hheld := hothers k (by omega) (by omega) (by omega) hku
      rw [is_node_already_replica_iff] at hheld ⊢
      exact (heal_fill_kept hfill).mem_active hheld
    · have hstep : heal_scan nodes false (todo + 1) n f a ev =
          heal_scan nodes false todo (n + 1) f a ev := by
        cases hu : node_is_up nodes n with
        | false => exact heal_scan_down nodes todo n f a ev hu
        | true =>
          exact heal_scan_held nodes todo n f a ev
            (hothers n (le_refl n) (by omega) hnm hu)
      rw [hstep]
      exact ih (n + 1) (by omega) (by omega)
        (fun k hk1 hk2 hkm hku => hothers k (by omega) (by omega) hkm hku)

theorem heal_file_single (nodes : List Node) (f : FileEntry) (m : Nat) (rs : List FileReplica)
    (hc : count_active_replicas f < REPLICA_COUNT) (hm : m < MAX_NODES)
    (hup : node_is_up nodes m = true)
    (hfree : is_node_already_replica f (m : Int) = false)
    (hothers : ∀ k, k < MAX_NODES → k ≠ m → node_is_up nodes k = true →
      is_node_already_replica f (k : Int) = true)
    (hfill : heal_fill (m : Int) f.replicas = some rs) :
    heal_file nodes f = ({ f with replicas := rs }, [{ name := f.name, node := (m : Int) }]) := by
  rw [heal_file_eq, if_pos hc,
    heal_scan_single nodes MAX_NODES 0 f _ [] m rs (Nat.zero_le m) (by omega) hup hfree
      (fun k _ hk2 hkm hku => hothers k (by omega) hkm hku) hfill]
  rfl

theorem heal_replication_files_getElem? (s : State) (idx : Nat) :
    (heal_replication s).1.files[idx]? = (s.files[idx]?).map (heal_slot s.nodes) := by
  simp only [heal_replication, heal_files_fst, List.getElem?_map]

theorem heal_slot_full (nodes : List Node) (f : FileEntry)
    (h : REPLICA_COUNT ≤ count_active_replicas f) : heal_slot nodes f = f := by
  unfold heal_slot
  split_ifs
  · rfl
  · rw [heal_file_of_settled nodes f (Or.inl h)]

/-! ## Recovery of a node -/

theorem recover_node_done_inv (s : State) (i : Int)
    (h : (recover_node s i).2.1 = NodeResult.Done) :
    0 ≤ i ∧ i < (MAX_NODES : Int) ∧ node_is_up s.nodes i.toNat = false := by
  unfold recover_node at h
  split_ifs at h with h1 h2
  refine ⟨by omega, by omega, ?_⟩
  cases hu : node_is_up s.nodes i.toNat with
  | false => rfl
  | true => exact absurd hu h2

theorem fail_node_done_inv (s : State) (i : Int)
    (h : (fail_node s i).2.1 = NodeResult.Done) :
    0 ≤ i ∧ i < (MAX_NODES : Int) ∧ node_is_up s.nodes i.toNat = true := by
  unfold fail_node at h
  split_ifs at h with h1 h2
  refine ⟨by omega, by omega, ?_⟩
  cases hu : node_is_up s.nodes i.toNat with
  | true => rfl
  | false => simp [hu] at h2

theorem count_lt_not_allActive (f : FileEntry) (hlen : f.replicas.length = REPLICA_COUNT)
    (hc : count_active_replicas f < REPLICA_COUNT) : ¬ AllActive f.replicas := by
  intro hall
  unfold count_active_replicas at hc
  rw [allActive_countP hall, hlen] at hc
  exact lt_irrefl _ hc

/-- What healing does to a degraded used file right after node `i` came back, in a state
that satisfied the invariant: the first free slot gets a replica on node `i`. -/
theorem recover_heal_slot (s : State) (i : Int) (f : FileEntry) (hinv : StateInv s)
    (hlen : f.replicas.length = REPLICA_COUNT) (hf : f ∈ s.files) (hu : f.in_use ≠ 0)
    (h0 : 0 ≤ i) (h1 : i < (MAX_NODES : Int)) (hd : node_is_up s.nodes i.toNat = false)
    (hc : count_active_replicas f < REPLICA_COUNT) :
    ∃ (r : Nat) (x : FileReplica), f.replicas[r]? = some x ∧ x.is_active = 0 ∧
      (∀ (j : Nat) (y : FileReplica), j < r → f.replicas[j]? = some y → y.is_active ≠ 0) ∧
      heal_fill i f.replicas = some (f.replicas.set r { node_id := i, is_active := 1 }) ∧
      heal_file (s.nodes.set i.toNat { (s.nodes.getD i.toNat Node.zero) with is_up := 1 }) f =
        ({ f with replicas := f.replicas.set r { node_id := i, is_active := 1 } },
          [{ name := f.name, node := i }]) := by
  have hnall := count_lt_not_allActive f hlen hc
  obtain ⟨r, x, hx, hx0, hmin⟩ := exists_first_inactive f.replicas hnall
  have hfill := heal_fill_first_inactive i f.replicas r x hx hx0 hmin
  have hcast : ((i.toNat : Nat) : Int) = i := Int.toNat_of_nonneg h0
  have hlt : i.toNat < s.nodes.length := by
    rw [hinv.1]
    omega
  refine ⟨r, x, hx, hx0, hmin, hfill, ?_⟩
  have hfill2 : heal_fill ((i.toNat : Nat) : Int) f.replicas =
      some (f.replicas.set r { node_id := i, is_active := 1 }) := by
    rw [hcast]
    exact hfill
  have hs := heal_file_single
    (s.nodes.set i.toNat { (s.nodes.getD i.toNat Node.zero) with is_up := 1 }) f i.toNat _ hc
    (by omega) (by rw [node_is_up_set_eq _ _ _ hlt]; rfl) ?_ ?_ hfill2
  · rw [hs, hcast]
  · cases hh : is_node_already_replica f ((i.toNat : Nat) : Int) with
    | false => rfl
    | true =>
      exfalso
      obtain ⟨y, hy, hya, hyn⟩ := (mem_active_nodes_iff _ _).1
        ((is_node_already_replica_iff f _).1 hh)
      have hlive := ((hinv.2 f hf hu).1 y hy hya).2.2
      rw [hyn, Int.toNat_ofNat, hd] at hlive
      cases hlive
  · intro k hk hki hku
    rw [node_is_up_set_ne _ _ _ _ hki] at hku
    rcases (hinv.2 f hf hu).2 with hs | hs
    · exact absurd hc (Nat.not_lt.2 hs)
    · rcases hs k hk hku with h2 | h2
      · exact h2
      · exact absurd h2 hnall

theorem recover_node_files_getElem? (s : State) (i : Int) (idx : Nat) (h0 : 0 ≤ i)
    (h1 : i < (MAX_NODES : Int)) (hd : node_is_up s.nodes i.toNat = false) :
    (recover_node s i).1.files[idx]? =
      (s.files[idx]?).map
        (heal_slot (s.nodes.set i.toNat { (s.nodes.getD i.toNat Node.zero) with is_up := 1 })) := by
  rw [recover_node_done s i h0 h1 hd, heal_replication_files_getElem?]

/-- C14: in every reachable state a successful `recover_node(i)` gives each used file with
fewer than `REPLICA_COUNT` active replicas exactly one new active replica, on node `i`, in
its lowest-indexed inactive slot, and leaves each used file with `REPLICA_COUNT` active
replicas as it is. -/
theorem recover_node_repairs (s : State) (h : Reachable s) (i : Int)
    (hdone : (recover_node s i).2.1 = NodeResult.Done) :
    ∀ (idx : Nat) (f : FileEntry), s.files[idx]? = some f → f.in_use ≠ 0 →
      (count_active_replicas f < REPLICA_COUNT →
        ∃ (r : Nat) (x : FileReplica), f.replicas[r]? = some x ∧ x.is_active = 0 ∧
          (∀ (j : Nat) (y : FileReplica), j < r → f.replicas[j]? = some y →
            y.is_active ≠ 0) ∧
          (recover_node s i).1.files[idx]? =
            some { f with replicas := f.replicas.set r { node_id := i, is_active := 1 } } ∧
          count_active_replicas
              { f with replicas := f.replicas.set r { node_id := i, is_active := 1 } } =
            count_active_replicas f + 1) ∧
      (count_active_replicas f = REPLICA_COUNT → (recover_node s i).1.files[idx]? = some f) := by
  obtain ⟨h0, h1, hd⟩ := recover_node_done_inv s i hdone
  intro idx f hf hu
  have hmem : f ∈ s.files := List.getElem?_mem hf
  have hlen := (filesInv_reachable s h f hmem).1
  rw [recover_node_files_getElem? s i idx h0 h1 hd, hf]
  constructor
  · intro hc
    obtain ⟨r, x, hx, hx0, hmin, hfill, hheal⟩ :=
      recover_heal_slot s i f (stateInv_reachable s h) hlen hmem hu h0 h1 hd hc
    refine ⟨r, x, hx, hx0, hmin, ?_, heal_fill_count hfill⟩
    simp only [Option.map_some', heal_slot, if_neg hu, hheal]
  · intro hc
    rw [Option.map_some', heal_slot_full _ f (by omega)]

/-- With every node down a used file of a state that satisfies the invariant has no active
slot. -/
theorem all_down_no_active (s : State) (hinv : StateInv s)
    (hdown : ∀ k, k < MAX_NODES → node_is_up s.nodes k = false) (f : FileEntry)
    (hf : f ∈ s.files) (hu : f.in_use ≠ 0) : ∀ r ∈ f.replicas, r.is_active = 0 := by
  intro r hr
  by_contra ha
  obtain ⟨k0, k1, k2⟩ := (hinv.2 f hf hu).1 r hr ha
  rw [hdown r.node_id.toNat (by omega)] at k2
  cases k2

/-- C13: in every reachable state with all nodes down, `read_file` on the name of a used
file reports `Unavailable`; after `recover_node(i)` for a node `i` of the registry, each of
these files has exactly one active replica (one node is up), and `read_file` on its name
serves its data from node `i`. -/
theorem all_down_then_recover (s : State) (h : Reachable s)
    (hdown : ∀ k, k < MAX_NODES → node_is_up s.nodes k = false) :
    (∀ f ∈ s.files, f.in_use ≠ 0 → (read_file s f.name).2 = ReadResult.Unavailable) ∧
    ∀ (i : Int), 0 ≤ i → i < (MAX_NODES : Int) →
      (up_nodes (recover_node s i).1.nodes).length = 1 ∧
      ∀ (idx : Nat) (f : FileEntry), s.files[idx]? = some f → f.in_use ≠ 0 →
        ∃ f2, (recover_node s i).1.files[idx]? = some f2 ∧ f2.in_use = f.in_use ∧
          f2.name = f.name ∧ f2.data = f.data ∧ count_active_replicas f2 = 1 ∧
          (read_file (recover_node s i).1 f.name).2 = ReadResult.Served i f.name f.data := by
  have hinv := stateInv_reachable s h
  have huniq := namesUnique_reachable s h
  constructor
  · intro f hf hu
    obtain ⟨idx, hidx⟩ := List.mem_iff_getElem?.1 hf
    rw [read_file_own s idx f huniq hidx hu, read_scan_unavailable_iff]
    intro r hr hlive
    exact hlive.1 (all_down_no_active s hinv hdown f hf hu r hr)
  · intro i h0 h1
    have hd : node_is_up s.nodes i.toNat = false := hdown i.toNat (by omega)
    have hlt : i.toNat < s.nodes.length := by
      rw [hinv.1]
      omega
    have hreach2 : Reachable (recover_node s i).1 := Reachable.recover i h
    have hfiles : ∀ (idx : Nat) (f : FileEntry), s.files[idx]? = some f → f.in_use ≠ 0 →
        ∃ tl, (recover_node s i).1.files[idx]? =
            some { f with replicas := { node_id := i, is_active := 1 } :: tl } ∧
          count_active_replicas { f with replicas := { node_id := i, is_active := 1 } :: tl } = 1 := by
      intro idx f hf hu
      have hmem : f ∈ s.files := List.getElem?_mem hf
      have hlen := (filesInv_reachable s h f hmem).1
      have hnone := all_down_no_active s hinv hdown f hmem hu
      have hc0 : count_active_replicas f = 0 := by
        unfold count_active_replicas
        rw [List.countP_eq_zero]
        intro r hr
        simp [hnone r hr]
      obtain ⟨r, x, hx, _, hmin, hfill, hheal⟩ :=
        recover_heal_slot s i f hinv hlen hmem hu h0 h1 hd (by rw [hc0]; decide)
      cases hrep : f.replicas with
      | nil =>
        rw [hrep] at hlen
        cases hlen
      | cons a tl =>
        have hr0 : r = 0 := by
          by_contra hne
          have ha : a.is_active ≠ 0 := hmin 0 a (Nat.pos_of_ne_zero hne)
            (by rw [hrep]; exact List.getElem?_cons_zero)
          exact ha (hnone a (by rw [hrep]; exact List.mem_cons_self _ _))
        subst hr0
        have hcount := heal_fill_count hfill
        rw [hrep] at hheal hcount
        simp only [List.set_cons_zero] at hheal hcount
        refine ⟨tl, ?_, by rw [hcount, hc0]⟩
        rw [recover_node_files_getElem? s i idx h0 h1 hd, hf]
        simp only [Option.map_some', heal_slot, if_neg hu, hheal]
    have hnodes : (recover_node s i).1.nodes =
        s.nodes.set i.toNat { (s.nodes.getD i.toNat Node.zero) with is_up := 1 } := by
      rw [recover_node_done s i h0 h1 hd]
      rfl
    constructor
    · rw [hnodes]
      have hup : up_nodes (s.nodes.set i.toNat
          { (s.nodes.getD i.toNat Node.zero) with is_up := 1 }) = [i.toNat] := by
        unfold up_nodes
        have hfilter : (List.range MAX_NODES).filter (node_is_up (s.nodes.set i.toNat
            { (s.nodes.getD i.toNat Node.zero) with is_up := 1 })) =
            (List.range MAX_NODES).filter (fun k => decide (k = i.toNat)) := by
          apply List.filter_congr
          intro k hk
          rw [List.mem_range] at hk
          by_cases hki : k = i.toNat
          · rw [hki, node_is_up_set_eq _ _ _ hlt]
            simp
          · rw [node_is_up_set_ne _ _ _ _ hki, hdown k hk]
            simp [hki]
        rw [hfilter]
        have hi4 : i.toNat < MAX_NODES := by omega
        interval_cases hi : i.toNat <;> rfl
      rw [hup]
      rfl
    · intro idx f hf hu
      obtain ⟨tl, hget, hcount⟩ := hfiles idx f hf hu
      refine ⟨_, hget, rfl, rfl, rfl, hcount, ?_⟩
      have hown := read_file_own (recover_node s i).1 idx
        { f with replicas := { node_id := i, is_active := 1 } :: tl }
        (namesUnique_reachable _ hreach2) hget hu
      simp only at hown
      rw [hown, read_scan_cons_live]
      refine ⟨by simp, h0, h1, ?_⟩
      rw [hnodes, node_is_up_set_eq _ _ _ hlt]
      rfl

/-! ## Failure of a node while all nodes are up -/

theorem up_nodes_all_up (nodes : List Node)
    (hall : ∀ k, k < MAX_NODES → node_is_up nodes k = true) :
    up_nodes nodes = List.range MAX_NODES := by
  unfold up_nodes
  rw [List.filter_eq_self]
  intro k hk
  exact hall k (List.mem_range.1 hk)

theorem allActive_of_count (f : FileEntry) (hlen : f.replicas.length = REPLICA_COUNT)
    (hc : count_active_replicas f = REPLICA_COUNT) : AllActive f.replicas := by
  unfold count_active_replicas at hc
  rw [← hlen, List.countP_eq_length] at hc
  intro r hr
  simpa using hc r hr

/-- Three distinct node ids out of the four of the registry leave exactly one out. -/
theorem exists_unique_missing_node (A : List Int) (hnd : A.Nodup)
    (hlen : A.length = REPLICA_COUNT)
    (hsub : A ⊆ (List.range MAX_NODES).map (fun k : Nat => (k : Int))) :
    ∃ m : Nat, m < MAX_NODES ∧ (m : Int) ∉ A ∧
      ∀ k : Nat, k < MAX_NODES → (k : Int) ∉ A → k = m := by
  have sp := List.subperm_of_subset hnd hsub
  obtain ⟨a, ha⟩ := sp.exists_of_length_lt (by rw [hlen]; decide)
  have hperm : (a :: A).Perm ((List.range MAX_NODES).map (fun k : Nat => (k : Int))) :=
    ha.perm_of_length_le (by rw [List.length_cons, hlen]; decide)
  have hU : ((List.range MAX_NODES).map (fun k : Nat => (k : Int))).Nodup :=
    (List.nodup_range MAX_NODES).map (fun x y e => Int.ofNat.inj e)
  have hnd2 : (a :: A).Nodup := hperm.nodup_iff.2 hU
  obtain ⟨m, hm, hma⟩ := List.mem_map.1 (hperm.subset (List.mem_cons_self a A))
  refine ⟨m, List.mem_range.1 hm, ?_, ?_⟩
  · rw [hma]
    exact (List.nodup_cons.1 hnd2).1
  · intro k hk hkA
    have hkU : (k : Int) ∈ (List.range MAX_NODES).map (fun k : Nat => (k : Int)) :=
      List.mem_map.2 ⟨k, List.mem_range.2 hk, rfl⟩
    rcases List.mem_cons.1 (hperm.symm.subset hkU) with h1 | h1
    · rw [← hma] at h1
      exact_mod_cast h1
    · exact absurd h1 hkA

/-- Dropping the slots on node `n` of a file whose slots are all active on distinct nodes
changes the one slot that holds `n`. -/
theorem invalidate_replicas_single (n : Int) (f : FileEntry) (r : Nat) (x : FileReplica)
    (hu : f.in_use ≠ 0) (hall : AllActive f.replicas)
    (hnd : (active_nodes f.replicas).Nodup) (hx : f.replicas[r]? = some x)
    (hn : x.node_id = n) :
    invalidate_replicas n f =
      { f with replicas := f.replicas.set r { x with is_active := 0 } } := by
  have hact : x.is_active ≠ 0 := hall x (List.getElem?_mem hx)
  have hrlt : r < f.replicas.length := (List.getElem?_eq_some.1 hx).1
  unfold invalidate_replicas
  rw [if_neg hu]
  congr 1
  apply List.ext_getElem?
  intro j
  rw [List.getElem?_map, List.getElem?_set]
  by_cases hj : r = j
  · subst hj
    rw [if_pos rfl, if_pos hrlt, hx, Option.map_some', if_pos ⟨hact, hn⟩]
  · rw [if_neg hj]
    cases hy : f.replicas[j]? with
    | none => rfl
    | some y =>
      have hya : y.is_active ≠ 0 := hall y (List.getElem?_mem hy)
      have hne : x.node_id ≠ y.node_id :=
        (active_nodes_nodup_iff f.replicas).1 hnd r j x y hj hx hy hact hya
      rw [Option.map_some', if_neg (fun hc => hne (hn.trans hc.2.symm))]

theorem fail_node_files_getElem? (s : State) (n : Int) (idx : Nat) (h0 : 0 ≤ n)
    (h1 : n < (MAX_NODES : Int)) (hu : node_is_up s.nodes n.toNat = true) :
    (fail_node s n).1.files[idx]? =
      (s.files[idx]?).map (fun f =>
        heal_slot (s.nodes.set n.toNat { (s.nodes.getD n.toNat Node.zero) with is_up := 0 })
          (invalidate_replicas n f)) := by
  rw [fail_node_done s n h0 h1 hu, heal_replication_files_getElem?]
  simp only [List.getElem?_map, Option.map_map]
  rfl

/-- What `fail_node` does to a used file with a replica on the failing node, from a state
that satisfies the invariants and has all nodes up: the slot of the failed node gets the
one node that held no replica of the file. -/
theorem fail_heal_slot (s : State) (f : FileEntry) (r : Nat) (x : FileReplica)
    (hinv : StateInv s) (hlen : f.replicas.length = REPLICA_COUNT)
    (hnd : (active_nodes f.replicas).Nodup) (hf : f ∈ s.files) (hu : f.in_use ≠ 0)
    (hall : ∀ k, k < MAX_NODES → node_is_up s.nodes k = true)
    (hx : f.replicas[r]? = some x) (hact : x.is_active ≠ 0) :
    ∃ m : Nat, m < MAX_NODES ∧ (m : Int) ∉ active_nodes f.replicas ∧
      (∀ k : Nat, k < MAX_NODES → (k : Int) ∉ active_nodes f.replicas → k = m) ∧
      heal_file
          (s.nodes.set x.node_id.toNat
            { (s.nodes.getD x.node_id.toNat Node.zero) with is_up := 0 })
          (invalidate_replicas x.node_id f) =
        ({ f with replicas := f.replicas.set r { node_id := (m : Int), is_active := 1 } },
          [{ name := f.name, node := (m : Int) }]) ∧
      count_active_replicas
          { f with replicas := f.replicas.set r { node_id := (m : Int), is_active := 1 } } =
        REPLICA_COUNT := by
  obtain ⟨hl, hs⟩ := hinv.2 f hf hu
  have hcount : count_active_replicas f = REPLICA_COUNT := by
    rw [count_eq_min_of_inv s.nodes f hlen hnd hl hs, up_nodes_all_up s.nodes hall]
    rfl
  have hAll := allActive_of_count f hlen hcount
  have hsub := active_nodes_subset_up s.nodes f hl
  rw [up_nodes_all_up s.nodes hall] at hsub
  obtain ⟨m, hm, hmA, hmuniq⟩ := exists_unique_missing_node (active_nodes f.replicas) hnd
    (by rw [← count_eq_length_active, hcount]) hsub
  obtain ⟨k0, k1, _⟩ := hl x (List.getElem?_mem hx) hact
  have hcast : ((x.node_id.toNat : Nat) : Int) = x.node_id := Int.toNat_of_nonneg k0
  have hnlt : x.node_id.toNat < s.nodes.length := by
    rw [hinv.1]
    omega
  have hxA : x.node_id ∈ active_nodes f.replicas :=
    (mem_active_nodes_iff _ _).2 ⟨x, List.getElem?_mem hx, hact, rfl⟩
  have hmn : m ≠ x.node_id.toNat := by
    intro e
    apply hmA
    rw [e, hcast]
    exact hxA
  have hrlt : r < f.replicas.length := (List.getElem?_eq_some.1 hx).1
  have hinval := invalidate_replicas_single x.node_id f r x hu hAll hnd hx rfl
  have hfill : heal_fill (m : Int) (f.replicas.set r { x with is_active := 0 }) =
      some (f.replicas.set r { node_id := (m : Int), is_active := 1 }) := by
    rw [heal_fill_first_inactive (m : Int) (f.replicas.set r { x with is_active := 0 }) r
      { x with is_active := 0 } (by rw [List.getElem?_set, if_pos rfl, if_pos hrlt]) rfl ?_,
      List.set_set]
    intro j y hj hy
    rw [List.getElem?_set, if_neg (by omega)] at hy
    exact hAll y (List.getElem?_mem hy)
  refine ⟨m, hm, hmA, hmuniq, ?_, ?_⟩
  · rw [hinval]
    have hsingle := heal_file_single
      (s.nodes.set x.node_id.toNat { (s.nodes.getD x.node_id.toNat Node.zero) with is_up := 0 })
      { f with replicas := f.replicas.set r { x with is_active := 0 } } m
      (f.replicas.set r { node_id := (m : Int), is_active := 1 }) ?_ hm ?_ ?_ ?_ hfill
    · rw [hsingle]
    · by_contra hge
      have h3 : count_active_replicas
          { f with replicas := f.replicas.set r { x with is_active := 0 } } = REPLICA_COUNT := by
        have hle : count_active_replicas
            { f with replicas := f.replicas.set r { x with is_active := 0 } } ≤
            (f.replicas.set r { x with is_active := 0 }).length := List.countP_le_length _
        rw [List.length_set, hlen] at hle
        omega
      have hall2 := allActive_of_count
        { f with replicas := f.replicas.set r { x with is_active := 0 } }
        (by simp only [List.length_set]; exact hlen) h3
      have hmem0 : ({ x with is_active := 0 } : FileReplica) ∈
          f.replicas.set r { x with is_active := 0 } :=
        List.getElem?_mem (n := r) (by rw [List.getElem?_set, if_pos rfl, if_pos hrlt])
      exact hall2 { x with is_active := 0 } hmem0 rfl
    · rw [node_is_up_set_ne _ _ _ _ hmn]
      exact hall m hm
    · cases hh : is_node_already_replica
          { f with replicas := f.replicas.set r { x with is_active := 0 } } (m : Int) with
      | false => rfl
      | true =>
        exfalso
        obtain ⟨y, hy, hya, hyn⟩ := (mem_active_nodes_iff _ _).1
          ((is_node_already_replica_iff _ _).1 hh)
        rcases List.mem_or_eq_of_mem_set hy with hy | hy
        · exact hmA ((mem_active_nodes_iff _ _).2 ⟨y, hy, hya, hyn⟩)
        · rw [hy] at hya
          exact hya rfl
    · intro k hk hkm hku
      have hkn : k ≠ x.node_id.toNat := by
        intro e
        rw [e, node_is_up_set_eq _ _ _ hnlt] at hku
        simp at hku
      have hkA : (k : Int) ∈ active_nodes f.replicas := by
        by_contra hc
        exact hkm (hmuniq k hk hc)
      obtain ⟨y, hy, hya, hyn⟩ := (mem_active_nodes_iff _ _).1 hkA
      obtain ⟨j, hj⟩ := List.mem_iff_getElem?.1 hy
      have hjr : r ≠ j := by
        intro e
        rw [← e, hx] at hj
        simp only [Option.some.injEq] at hj
        rw [← hj, ← hcast] at hyn
        exact hkn (by exact_mod_cast hyn.symm)
      rw [is_node_already_replica_iff]
      refine (mem_active_nodes_iff _ _).2 ⟨y, ?_, hya, hyn⟩
      apply List.getElem?_mem (n := j)
      simp only
      rw [List.getElem?_set, if_neg hjr]
      exact hj
  · have hall3 : AllActive (f.replicas.set r { node_id := (m : Int), is_active := 1 }) := by
      intro y hy
      rcases List.mem_or_eq_of_mem_set hy with hy | hy
      · exact hAll y hy
      · rw [hy]
        show (1 : Int) ≠ 0
        decide
    unfold count_active_replicas
    simp only
    rw [allActive_countP hall3, List.length_set, hlen]

/-- C12: in every reachable state with all `MAX_NODES` nodes up, when a used file has an
active replica on a node and that node fails, `fail_node` leaves the file with
`REPLICA_COUNT` active replicas: the slot that held the failed node now holds the one node
that held no replica of the file, and the other slots are as before. -/
theorem fail_node_reassigns (s : State) (h : Reachable s)
    (hall : ∀ k, k < MAX_NODES → node_is_up s.nodes k = true)
    (idx : Nat) (f : FileEntry) (r : Nat) (x : FileReplica)
    (hf : s.files[idx]? = some f) (hu : f.in_use ≠ 0)
    (hx : f.replicas[r]? = some x) (hact : x.is_active ≠ 0) :
    (fail_node s x.node_id).2.1 = NodeResult.Done ∧
    ∃ m : Nat, m < MAX_NODES ∧ (m : Int) ∉ active_nodes f.replicas ∧
      (∀ k : Nat, k < MAX_NODES → (k : Int) ∉ active_nodes f.replicas → k = m) ∧
      (fail_node s x.node_id).1.files[idx]? =
        some { f with replicas := f.replicas.set r { node_id := (m : Int), is_active := 1 } } ∧
      count_active_replicas
          { f with replicas := f.replicas.set r { node_id := (m : Int), is_active := 1 } } =
        REPLICA_COUNT := by
  have hinv := stateInv_reachable s h
  have hmem : f ∈ s.files := List.getElem?_mem hf
  obtain ⟨hlen, hnd⟩ := filesInv_reachable s h f hmem
  obtain ⟨k0, k1, k2⟩ := (hinv.2 f hmem hu).1 x (List.getElem?_mem hx) hact
  obtain ⟨m, hm, hmA, hmuniq, hheal, hcount⟩ :=
    fail_heal_slot s f r x hinv hlen (hnd hu) hmem hu hall hx hact
  refine ⟨by rw [fail_node_done s x.node_id k0 k1 k2], m, hm, hmA, hmuniq, ?_, hcount⟩
  rw [fail_node_files_getElem? s x.node_id idx k0 k1 k2, hf, Option.map_some']
  have hu2 : (invalidate_replicas x.node_id f).in_use ≠ 0 := by
    rw [(invalidate_replicas_frame x.node_id f).2.2.1]
    exact hu
  unfold heal_slot
  rw [if_neg hu2, hheal]

/-! ## The code against the healing procedure of the specification -/

theorem range_getElem?_eq_some (N j b : Nat) :
    (List.range N)[j]? = some b ↔ j < N ∧ b = j := by
  rw [List.getElem?_eq_some]
  constructor
  · rintro ⟨hj, e⟩
    rw [List.length_range] at hj
    rw [List.getElem_range] at e
    exact ⟨hj, e.symm⟩
  · rintro ⟨hj, e⟩
    refine ⟨by rw [List.length_range]; exact hj, ?_⟩
    rw [List.getElem_range]
    exact e.symm

theorem spec_candidate_eq_some (nodes : List Node) (f : FileEntry) (n : Nat)
    (hn : n < MAX_NODES) (hup : node_is_up nodes n = true)
    (hfree : is_node_already_replica f (n : Int) = false)
    (hlow : ∀ k, k < n → node_is_up nodes k = true →
      is_node_already_replica f (k : Int) = true) :
    spec_candidate nodes f = some n := by
  unfold spec_candidate
  rw [first_index_eq_some_iff]
  refine ⟨n, (range_getElem?_eq_some _ _ _).2 ⟨hn, rfl⟩, by simp [hup, hfree], ?_⟩
  intro j b hj hb
  obtain ⟨_, rfl⟩ := (range_getElem?_eq_some _ _ _).1 hb
  cases hu : node_is_up nodes b with
  | false => simp
  | true => simp [hlow b hj hu]

theorem spec_candidate_eq_none (nodes : List Node) (f : FileEntry)
    (h : ∀ k, k < MAX_NODES → node_is_up nodes k = true →
      is_node_already_replica f (k : Int) = true) :
    spec_candidate nodes f = none := by
  unfold spec_candidate
  rw [first_index_eq_none_iff]
  intro k hk
  cases hu : node_is_up nodes k with
  | false => simp
  | true => simp [h k (List.mem_range.1 hk) hu]

theorem spec_occupy_eq (n : Int) (rs rs2 : List FileReplica) (h : heal_fill n rs = some rs2) :
    spec_occupy n rs = rs2 := by
  induction rs generalizing rs2 with
  | nil => simp [heal_fill] at h
  | cons a rs ih =>
    by_cases ha : a.is_active = 0
    · simp only [heal_fill, ha, if_true, Option.some.injEq] at h
      simp only [spec_occupy, ha, if_true, h]
    · simp only [heal_fill, ha, if_false, Option.map_eq_some'] at h
      obtain ⟨t, ht, e⟩ := h
      simp only [spec_occupy, ha, if_false, ih t ht, e]

/-- The healing lines of the node loop are added after the lines printed before it, and the
file it returns does not depend on them nor on `active`. -/
theorem heal_scan_events (nodes : List Node) (todo n : Nat) (f : FileEntry) (a : Nat)
    (ev : List HealEvent) :
    (heal_scan nodes false todo n f a ev).1 = (heal_scan nodes false todo n f 0 []).1 ∧
    (heal_scan nodes false todo n f a ev).2.2 =
      ev ++ (heal_scan nodes false todo n f 0 []).2.2 := by
  induction todo generalizing n f a ev with
  | zero => exact ⟨rfl, (List.append_nil ev).symm⟩
  | succ todo ih =>
    cases hu : node_is_up nodes n with
    | false =>
      rw [heal_scan_down nodes todo n f a ev hu, heal_scan_down nodes todo n f 0 [] hu]
      exact ih _ _ _ _
    | true =>
      cases hh : is_node_already_replica f (n : Int) with
      | true =>
        rw [heal_scan_held nodes todo n f a ev hh, heal_scan_held nodes todo n f 0 [] hh]
        exact ih _ _ _ _
      | false =>
        cases hf : heal_fill (n : Int) f.replicas with
        | none =>
          rw [heal_scan_full nodes todo n f a ev hf, heal_scan_full nodes todo n f 0 [] hf]
          exact ih _ _ _ _
        | some rs =>
          rw [heal_scan_fill nodes todo n f a ev rs hu hh hf,
            heal_scan_fill nodes todo n f 0 [] rs hu hh hf]
          obtain ⟨h1, h2⟩ := ih (n + 1) { f with replicas := rs } (a + 1)
            (ev ++ [{ name := f.name, node := (n : Int) }])
          obtain ⟨h3, h4⟩ := ih (n + 1) { f with replicas := rs } (0 + 1)
            ([] ++ [{ name := f.name, node := (n : Int) }])
          rw [h1, h2, h3, h4]
          exact ⟨rfl, by simp⟩

/-- From node `n` on, with every lower up node already holding a replica, the node loop of
the code does what the loop of the specification does. -/
theorem spec_heal_file_eq_scan (nodes : List Node) (todo n : Nat) (f : FileEntry)
    (fuel : Nat) (hn : n + todo = MAX_NODES) (hlen : f.replicas.length = REPLICA_COUNT)
    (hlow : ∀ k, k < n → node_is_up nodes k = true →
      is_node_already_replica f (k : Int) = true)
    (hfuel : REPLICA_COUNT - count_active_replicas f < fuel) :
    spec_heal_file nodes fuel f =
      some ((heal_scan nodes false todo n f 0 []).1,
        (heal_scan nodes false todo n f 0 []).2.2) := by
  induction todo generalizing n f fuel with
  | zero =>
    cases fuel with
    | zero => omega
    | succ fuel =>
      have hcand := spec_candidate_eq_none nodes f (fun k hk hu => hlow k (by omega) hu)
      simp only [spec_heal_file, hcand, heal_scan_zero]
      split_ifs <;> rfl
  | succ todo ih =>
    cases fuel with
    | zero => omega
    | succ fuel =>
      by_cases hc : count_active_replicas f < REPLICA_COUNT
      · have hnall := count_lt_not_allActive f hlen hc
        by_cases hel : node_is_up nodes n = true ∧ is_node_already_replica f (n : Int) = false
        · obtain ⟨hu, hh⟩ := hel
          cases hf : heal_fill (n : Int) f.replicas with
          | none => exact absurd ((heal_fill_eq_none_iff _ _).1 hf) hnall
          | some rs =>
            have hcand := spec_candidate_eq_some nodes f n (by omega) hu hh hlow
            have hcount := heal_fill_count hf
            have hih := ih (n + 1) { f with replicas := rs } fuel (by omega)
              (by rw [← hlen]; exact (heal_fill_kept hf).length_eq) ?_ (by omega)
            · rw [heal_scan_fill nodes todo n f 0 [] rs hu hh hf]
              obtain ⟨h1, h2⟩ := heal_scan_events nodes todo (n + 1) { f with replicas := rs }
                (0 + 1) ([] ++ [{ name := f.name, node := (n : Int) }])
              rw [h1, h2]
              simp only [spec_heal_file, if_pos hc, hcand, spec_occupy_eq _ _ _ hf, hih,
                Option.map_some', List.nil_append, List.singleton_append]
            · intro k hk hku
              by_cases hkn : k = n
              · rw [hkn, is_node_already_replica_iff]
                exact (heal_fill_active_perm hf).symm.subset (List.mem_cons_self _ _)
              · have := hlow k (by omega) hku
                rw [is_node_already_replica_iff] at this ⊢
                exact (heal_fill_kept hf).mem_active this
        · have hstep : heal_scan nodes false (todo + 1) n f 0 [] =
              heal_scan nodes false todo (n + 1) f 0 [] := by
            cases hu : node_is_up nodes n with
            | false => exact heal_scan_down nodes todo n f 0 [] hu
            | true =>
              cases hh : is_node_already_replica f (n : Int) with
              | true => exact heal_scan_held nodes todo n f 0 [] hh
              | false => exact absurd ⟨hu, hh⟩ hel
          rw [hstep]
          refine ih (n + 1) f (fuel + 1) (by omega) hlen ?_ hfuel
          intro k hk hku
          by_cases hkn : k = n
          · subst hkn
            cases hh : is_node_already_replica f (k : Int) with
            | true => rfl
            | false => exact absurd ⟨hku, hh⟩ hel
          · exact hlow k (by omega) hku
      · have hall : AllActive f.replicas :=
          allActive_of_count f hlen (by
            have : count_active_replicas f ≤ f.replicas.length := List.countP_le_length _
            omega)
        rw [heal_scan_noop nodes (todo + 1) n f 0 [] (fun _ _ _ _ => Or.inr hall)]
        simp only [spec_heal_file, if_neg hc]

theorem spec_heal_file_eq (nodes : List Node) (f : FileEntry) (fuel : Nat)
    (hlen : f.replicas.length = REPLICA_COUNT) (hfuel : REPLICA_COUNT < fuel) :
    spec_heal_file nodes fuel f = some (heal_file nodes f) := by
  rw [spec_heal_file_eq_scan nodes MAX_NODES 0 f fuel rfl hlen
    (fun k hk => absurd hk (Nat.not_lt_zero k)) (by omega), heal_file_eq]
  obtain ⟨h1, h2⟩ := heal_scan_events nodes MAX_NODES 0 f (count_active_replicas f) []
  split_ifs with hc
  · rw [h1, h2, List.nil_append]
  · have hall : AllActive f.replicas :=
      allActive_of_count f hlen (by
        have : count_active_replicas f ≤ f.replicas.length := List.countP_le_length _
        omega)
    rw [heal_scan_noop nodes MAX_NODES 0 f 0 [] (fun _ _ _ _ => Or.inr hall)]

theorem spec_heal_files_eq (nodes : List Node) (fs : List FileEntry) (fuel : Nat)
    (hlen : ∀ f ∈ fs, f.replicas.length = REPLICA_COUNT) (hfuel : REPLICA_COUNT < fuel) :
    spec_heal_files nodes fuel fs = some (heal_files nodes fs) := by
  induction fs with
  | nil => rfl
  | cons f fs ih =>
    have ih2 := ih (fun g hg => hlen g (List.mem_cons_of_mem _ hg))
    by_cases hu : f.in_use = 0
    · simp only [spec_heal_files, heal_files, hu, if_true, ih2, Option.map_some']
    · simp only [spec_heal_files, heal_files, hu, if_false, ih2, Option.map_some',
        spec_heal_file_eq nodes f fuel (hlen f (List.mem_cons_self _ _)) hfuel]

/-- C17: `heal_replication`, whose `found` flag is never set, does what the healing procedure
of the specification does: on every state whose files have `REPLICA_COUNT` slots, and with
any bound above `REPLICA_COUNT` on the turns of its loop, that procedure returns, with the
same state and the same sequence of healing events as `heal_replication`. -/
theorem heal_replication_refines_spec (s : State) (fuel : Nat)
    (hlen : ∀ f ∈ s.files, f.replicas.length = REPLICA_COUNT) (hfuel : REPLICA_COUNT < fuel) :
    spec_heal fuel s = some (heal_replication s) := by
  unfold spec_heal heal_replication
  rw [spec_heal_files_eq s.nodes s.files fuel hlen hfuel]
  rfl

/-! ## The claims on node failure, recovery and reachable states at concrete states -/

theorem stored_state_reachable : Reachable stored_state :=
  Reachable.create ['a'] ['x'] Reachable.init (by decide) (by decide)

set_option maxRecDepth 100000 in
/-- Scenario A: file `a` sits on nodes 0, 1, 2; when node 2 fails its third slot moves to
node 3 and one healing line is printed. -/
theorem scenario_a_reassigns :
    stored_state.files.head? = some stored_file ∧
    (fail_node stored_state 2).2.2 = [{ name := ['a'], node := 3 }] ∧
    (fail_node stored_state 2).1.files.head? =
      some { stored_file with replicas := [{ node_id := 0, is_active := 1 },
        { node_id := 1, is_active := 1 }, { node_id := 3, is_active := 1 }] } := by
  decide

set_option maxRecDepth 100000 in
/-- C12 at `stored_state`, file `a` in slot 0 and its replica on node 2 in replica slot 2. -/
theorem fail_node_reassigns_witness :
    Reachable stored_state ∧
    (∀ k, k < MAX_NODES → node_is_up stored_state.nodes k = true) ∧
    stored_state.files[0]? = some stored_file ∧ stored_file.in_use ≠ 0 ∧
    stored_file.replicas[2]? = some { node_id := 2, is_active := 1 } ∧
    ((fail_node stored_state 2).2.1 = NodeResult.Done ∧
    ∃ m : Nat, m < MAX_NODES ∧ (m : Int) ∉ active_nodes stored_file.replicas ∧
      (∀ k : Nat, k < MAX_NODES → (k : Int) ∉ active_nodes stored_file.replicas → k = m) ∧
      (fail_node stored_state 2).1.files[0]? =
        some { stored_file with
          replicas := stored_file.replicas.set 2 { node_id := (m : Int), is_active := 1 } } ∧
      count_active_replicas
          { stored_file with
            replicas := stored_file.replicas.set 2 { node_id := (m : Int), is_active := 1 } } =
        REPLICA_COUNT) :=
  ⟨stored_state_reachable, by decide, by decide, by decide, by decide,
    fail_node_reassigns stored_state stored_state_reachable (by decide) 0 stored_file 2
      { node_id := 2, is_active := 1 } (by decide) (by decide) (by decide) (by decide)⟩

set_option maxRecDepth 100000 in
/-- C13 at `all_down_state`. -/
theorem all_down_then_recover_witness :
    Reachable all_down_state ∧
    (∀ k, k < MAX_NODES → node_is_up all_down_state.nodes k = false) ∧
    ((∀ f ∈ all_down_state.files, f.in_use ≠ 0 →
      (read_file all_down_state f.name).2 = ReadResult.Unavailable) ∧
    ∀ (i : Int), 0 ≤ i → i < (MAX_NODES : Int) →
      (up_nodes (recover_node all_down_state i).1.nodes).length = 1 ∧
      ∀ (idx : Nat) (f : FileEntry), all_down_state.files[idx]? = some f → f.in_use ≠ 0 →
        ∃ f2, (recover_node all_down_state i).1.files[idx]? = some f2 ∧
          f2.in_use = f.in_use ∧ f2.name = f.name ∧ f2.data = f.data ∧
          count_active_replicas f2 = 1 ∧
          (read_file (recover_node all_down_state i).1 f.name).2 =
            ReadResult.Served i f.name f.data) :=
  ⟨all_down_state_reachable, by decide,
    all_down_then_recover all_down_state all_down_state_reachable (by decide)⟩

set_option maxRecDepth 100000 in
/-- C14 at `all_down_state` and node 0. -/
theorem recover_node_repairs_witness :
    Reachable all_down_state ∧
    (recover_node all_down_state 0).2.1 = NodeResult.Done ∧
    ∀ (idx : Nat) (f : FileEntry), all_down_state.files[idx]? = some f → f.in_use ≠ 0 →
      (count_active_replicas f < REPLICA_COUNT →
        ∃ (r : Nat) (x : FileReplica), f.replicas[r]? = some x ∧ x.is_active = 0 ∧
          (∀ (j : Nat) (y : FileReplica), j < r → f.replicas[j]? = some y →
            y.is_active ≠ 0) ∧
          (recover_node all_down_state 0).1.files[idx]? =
            some { f with replicas := f.replicas.set r { node_id := 0, is_active := 1 } } ∧
          count_active_replicas
              { f with replicas := f.replicas.set r { node_id := 0, is_active := 1 } } =
            count_active_replicas f + 1) ∧
      (count_active_replicas f = REPLICA_COUNT →
        (recover_node all_down_state 0).1.files[idx]? = some f) :=
  ⟨all_down_state_reachable, by decide,
    recover_node_repairs all_down_state all_down_state_reachable 0 (by decide)⟩

/-- C15 at `scenario_a_state`. -/
theorem reachable_replication_factor_witness :
    Reachable scenario_a_state ∧
    ∀ f ∈ scenario_a_state.files, f.in_use ≠ 0 →
      count_active_replicas f = min REPLICA_COUNT (up_nodes scenario_a_state.nodes).length ∧
      (count_active_replicas f < REPLICA_COUNT →
        (up_nodes scenario_a_state.nodes).length < REPLICA_COUNT) :=
  ⟨scenario_a_state_reachable,
    reachable_replication_factor scenario_a_state scenario_a_state_reachable⟩

set_option maxRecDepth 100000 in
/-- C17 at `degraded_state` with the bound 4. -/
theorem heal_replication_refines_spec_witness :
    (∀ f ∈ degraded_state.files, f.replicas.length = REPLICA_COUNT) ∧ REPLICA_COUNT < 4 ∧
    spec_heal 4 degraded_state = some (heal_replication degraded_state) :=
  ⟨by decide, by decide,
    heal_replication_refines_spec degraded_state 4 (by decide) (by decide)⟩

/-- C18 at `degraded_file` on the registry of `degraded_state`: the while loop returns with
the bound 1 what `heal_file` returns. -/
theorem heal_while_terminates_witness :
    heal_while degraded_state.nodes 1 degraded_file (count_active_replicas degraded_file) [] =
      some (heal_file degraded_state.nodes degraded_file) :=
  (heal_while_terminates degraded_state.nodes 0 degraded_file).2.1

set_option maxRecDepth 1000000 in
/-- C19 at `full_down_state`, whose 100 file slots are all used: slots 0 and 1, for one pair,
hold the used files `f00` and `f01`. -/
theorem reachable_names_unique_witness :
    Reachable full_down_state ∧
    full_down_state.files.length = MAX_FILES ∧
    (∀ f ∈ full_down_state.files, f.in_use ≠ 0) ∧
    full_down_state.files[0]? = some (numbered_file 0) ∧
    full_down_state.files[1]? = some (numbered_file 1) ∧
    ((∀ (i j : Nat) (f g : FileEntry), i ≠ j → full_down_state.files[i]? = some f →
      full_down_state.files[j]? = some g → f.in_use ≠ 0 → g.in_use ≠ 0 → f.name ≠ g.name) ∧
    ∀ (i : Nat) (f : FileEntry), full_down_state.files[i]? = some f → f.in_use ≠ 0 →
      find_file_index full_down_state.files f.name = some i) :=
  ⟨full_down_state_reachable, by decide, by decide, by decide, by decide,
    reachable_names_unique full_down_state full_down_state_reachable⟩

set_option maxRecDepth 100000 in
/-- C20 at `scenario_a_state`, where the used file `a` has three active replicas, on the up
nodes 0, 1 and 3, while node 2 is down. -/
theorem reachable_active_replicas_live_witness :
    Reachable scenario_a_state ∧
    (∃ f ∈ scenario_a_state.files, f.in_use ≠ 0 ∧ count_active_replicas f = 3) ∧
    node_is_up scenario_a_state.nodes 2 = false ∧
    ((∀ f ∈ scenario_a_state.files, f.in_use ≠ 0 → ∀ r ∈ f.replicas, r.is_active ≠ 0 →
      0 ≤ r.node_id ∧ r.node_id < (MAX_NODES : Int) ∧
      node_is_up scenario_a_state.nodes r.node_id.toNat = true) ∧
    (∀ f ∈ scenario_a_state.files, f.in_use ≠ 0 →
      ((∃ n, (read_file scenario_a_state f.name).2 = ReadResult.Served n f.name f.data) ↔
        1 ≤ count_active_replicas f)) ∧
    ∃ out, list_files scenario_a_state = some out ∧
      ∀ e ∈ out, ∀ p ∈ e.replicas, p.2 = true) :=
  ⟨scenario_a_state_reachable, by decide, by decide,
    reachable_active_replicas_live scenario_a_state scenario_a_state_reachable⟩

set_option maxRecDepth 100000 in
/-- The listing of scenario A after node 2 failed: file `a` on nodes 0, 1 and 3, all UP. -/
theorem list_files_scenario_a :
    list_files scenario_a_state =
      some [{ name := ['a'], data := ['x'], replicas := [(0, true), (1, true), (3, true)] }] := by
  decide

end Dfs
